import Mathlib

set_option maxHeartbeats 1000000

/-!
Shallow embedding of the request-handling pipeline of the Gemini API proxy
(key pool manager, rate limiter, concurrent cache manager, fake-streaming
emulator, upstream client glue), together with proofs and refutations of the
specification claims about it.

Strings from the TypeScript source are modelled by Lean `String`
(`List Char` where list lemmas are needed); JavaScript string operations
such as `includes`, `substring`, `split` and `trim` are embedded as
executable functions below.
-/

namespace GeminiProxy

/-- Embedding of JavaScript `a.startsWith(b)` on character lists. -/
def listStartsWith : List Char → List Char → Bool
  | _, [] => true
  | [], _ :: _ => false
  | a :: as, b :: bs => a == b && listStartsWith as bs

/-- Embedding of JavaScript `a.includes(b)` (substring test) on character lists. -/
def listContainsSub : List Char → List Char → Bool
  | [], sub => sub.isEmpty
  | l@(_ :: rest), sub => listStartsWith l sub || listContainsSub rest sub

/-- Embedding of JavaScript `a.includes(b)` on strings. -/
def strContains (s sub : String) : Bool :=
  listContainsSub s.data sub.data

/-- A substring of `s` is also a substring of `p ++ s` (helper for the
HTTP error-mapping analysis, where the client prepends a fixed message). -/
theorem listContainsSub_append_left (p l sub : List Char) :
    listContainsSub l sub = true → listContainsSub (p ++ l) sub = true := by
  intro h
  induction p with
  | nil => simpa using h
  | cons c cs ih =>
    show listContainsSub (c :: (cs ++ l)) sub = true
    match hsub : sub with
    | [] => simp [listContainsSub, listStartsWith]
    | s0 :: srest =>
      simp only [listContainsSub, Bool.or_eq_true]
      right
      exact ih

/-- String version of `listContainsSub_append_left`. -/
theorem strContains_append_left (p s sub : String) :
    strContains s sub = true → strContains (p ++ s) sub = true := by
  intro h
  have : (p ++ s).data = p.data ++ s.data := by
    cases p; cases s; rfl
  unfold strContains
  rw [this]
  exact listContainsSub_append_left p.data s.data sub.data h

/-! ## Key Pool Manager (src/lib/gemini/key-manager.ts)

`ApiKeyInfo` and `GeminiKeyManager`'s mutable fields (`keys`, `currentIndex`)
are embedded as an explicit state record; `maxErrorCount = 3`. Timestamps
(`Date.now()`) are threaded as an explicit `now` argument. -/

structure ApiKeyInfo where
  key : String
  isValid : Bool
  lastChecked : Nat
  errorCount : Nat
  lastError : Option String
deriving DecidableEq, Repr

structure KMState where
  keys : List ApiKeyInfo
  currentIndex : Nat
deriving DecidableEq, Repr

/-- `maxErrorCount` from GeminiKeyManager. -/
def maxErrorCount : Nat := 3

/-- Embedding of `GeminiKeyManager.getValidKeys`:
`this.keys.filter(k => k.isValid && k.errorCount < this.maxErrorCount)`. -/
def getValidKeys (s : KMState) : List ApiKeyInfo :=
  s.keys.filter (fun keyInfo => keyInfo.isValid && decide (keyInfo.errorCount < maxErrorCount))

/-- A fresh key record as built by `loadKeysFromEnv`. -/
def freshKey (key : String) : ApiKeyInfo :=
  { key := key, isValid := true, lastChecked := 0, errorCount := 0, lastError := none }

/-- Embedding of `GeminiKeyManager.getNextKey`. Returns `none` where the
source throws `No valid Gemini API keys available`; otherwise returns the
selected key string (`validKeys[currentIndex % validKeys.length]`, written
with `getD` — the index is always in range) and the state with the advanced
round-robin index. -/
def getNextKey (s : KMState) : Option (String × KMState) :=
  let validKeys := getValidKeys s
  if validKeys.length = 0 then
    none
  else
    some ((validKeys.getD (s.currentIndex % validKeys.length) (freshKey "")).key,
      { s with currentIndex := (s.currentIndex + 1) % validKeys.length })

/-- Error-message string thrown by `getNextKey` when no key qualifies. -/
def noValidKeysMsg : String := "No valid Gemini API keys available"

/-- Embedding of `markKeyFailed`'s permanent-error classification:
`error.includes('API_KEY_INVALID') || error.includes('PERMISSION_DENIED') ||
error.includes('Invalid API key') || error.includes('API key not valid')`. -/
def isPermanentError (error : String) : Bool :=
  strContains error "API_KEY_INVALID" || strContains error "PERMISSION_DENIED" ||
    strContains error "Invalid API key" || strContains error "API key not valid"

/-- The mutation `markKeyFailed` applies to the found `keyInfo`. -/
def markKeyFailedUpdate (error : String) (now : Nat) (keyInfo : ApiKeyInfo) : ApiKeyInfo :=
  let keyInfo := { keyInfo with
    errorCount := keyInfo.errorCount + 1
    lastError := some error
    lastChecked := now }
  if isPermanentError error then
    { keyInfo with isValid := false, errorCount := maxErrorCount }
  else if maxErrorCount ≤ keyInfo.errorCount then
    { keyInfo with isValid := false }
  else
    keyInfo

/-- JavaScript `this.keys.find(k => k.key === key)` mutates the first match
in place; embedded as updating the first list element whose `key` matches. -/
def updateFirstKey (f : ApiKeyInfo → ApiKeyInfo) (key : String) :
    List ApiKeyInfo → List ApiKeyInfo
  | [] => []
  | k :: ks => if k.key = key then f k :: ks else k :: updateFirstKey f key ks

/-- Embedding of `GeminiKeyManager.markKeyFailed`. -/
def markKeyFailed (s : KMState) (key : String) (error : String) (now : Nat) : KMState :=
  { s with keys := updateFirstKey (markKeyFailedUpdate error now) key s.keys }

/-- The mutation `markKeySuccess` applies to the found `keyInfo`
(reset error count, restore validity). -/
def markKeySuccessUpdate (now : Nat) (keyInfo : ApiKeyInfo) : ApiKeyInfo :=
  { keyInfo with errorCount := 0, isValid := true, lastChecked := now, lastError := none }

/-- Embedding of `GeminiKeyManager.markKeySuccess`. -/
def markKeySuccess (s : KMState) (key : String) (now : Nat) : KMState :=
  { s with keys := updateFirstKey (markKeySuccessUpdate now) key s.keys }

/-- Embedding of JavaScript `key.substring(0, 8) + '...'` used by
`getKeyStats` for the per-key redacted view. -/
def redactKey (s : String) : String :=
  String.mk (s.data.take 8 ++ ('.' :: '.' :: '.' :: []))

structure KeyStatEntry where
  key : String
  isValid : Bool
  errorCount : Nat
  lastChecked : Nat
  lastError : Option String
deriving DecidableEq, Repr

structure KeyStats where
  total : Nat
  valid : Nat
  invalid : Nat
  keys : List KeyStatEntry
deriving DecidableEq, Repr

/-- Embedding of `GeminiKeyManager.getKeyStats`. -/
def getKeyStats (s : KMState) : KeyStats :=
  let totalKeys := s.keys.length
  let validKeys := (getValidKeys s).length
  { total := totalKeys
    valid := validKeys
    invalid := totalKeys - validKeys
    keys := s.keys.map (fun keyInfo =>
      { key := redactKey keyInfo.key
        isValid := keyInfo.isValid
        errorCount := keyInfo.errorCount
        lastChecked := keyInfo.lastChecked
        lastError := keyInfo.lastError }) }

/-! ## Upstream client retry loop (GeminiClient.chatCompletion)

One iteration of the `for attempt` loop of `chatCompletion` is embedded as a
state transformer on the key-manager state. The body acquires a key with
`getNextKey`, issues the upstream call (whose outcome is a parameter of the
embedding), and on failure runs the `catch` block, which the source writes as

    if (this.isApiKeyError(error)) {
      const apiKey = geminiKeyManager.getNextKey();
      geminiKeyManager.markKeyFailed(apiKey, lastError.message);
    }

i.e. it acquires a fresh key from the rotation inside the catch handler and
reports that key as failed. -/

/-- ASCII case lowering, embedding `message.toLowerCase()` for the ASCII
error messages the client matches on. -/
def charToLower (c : Char) : Char :=
  if 'A' ≤ c ∧ c ≤ 'Z' then Char.ofNat (c.toNat + 32) else c

/-- String version of `charToLower`. -/
def jsToLower (s : String) : String :=
  String.mk (s.data.map charToLower)

/-- Embedding of `GeminiClient.isApiKeyError`. -/
def isApiKeyError (message : String) : Bool :=
  let m := jsToLower message
  strContains m "api key" || strContains m "unauthorized" ||
    strContains m "invalid key" || strContains m "quota exceeded"

/-- Result of one failed iteration of the `chatCompletion` retry loop:
which key the attempt acquired and used, which key (if any) was passed to
`markKeyFailed`, and the resulting key-manager state. -/
structure AttemptOutcome where
  usedKey : Option String
  markedKey : Option String
  state : KMState
deriving DecidableEq, Repr

/-- One iteration of `chatCompletion`'s retry loop in which the upstream call
fails with message `errMsg`. When `getNextKey` has no healthy key the `try`
body throws before any upstream call (`usedKey = none`); when the catch-block
`getNextKey` has no healthy key, the catch block itself throws and nothing is
marked. -/
def chatCompletionFailedAttempt (s : KMState) (errMsg : String) (now : Nat) : AttemptOutcome :=
  match getNextKey s with
  | none => { usedKey := none, markedKey := none, state := s }
  | some (apiKey, s1) =>
    if isApiKeyError errMsg then
      match getNextKey s1 with
      | some (apiKey2, s2) =>
        { usedKey := some apiKey
          markedKey := some apiKey2
          state := markKeyFailed s2 apiKey2 errMsg now }
      | none => { usedKey := some apiKey, markedKey := none, state := s1 }
    else
      { usedKey := some apiKey, markedKey := none, state := s1 }

/-- One iteration of `chatCompletion`'s retry loop in which the upstream call
succeeds: the acquired key is reported to `markKeySuccess`. -/
def chatCompletionSuccessAttempt (s : KMState) (now : Nat) : Option (String × KMState) :=
  match getNextKey s with
  | none => none
  | some (apiKey, s1) => some (apiKey, markKeySuccess s1 apiKey now)

/-- The two-key pool used to exhibit the failure-report mismatch. -/
def twoKeyPool : KMState :=
  { keys := [freshKey "keyA", freshKey "keyB"], currentIndex := 0 }

/-- The key names a later `getNextKey` call may still return: the selection
is made among `getValidKeys`. -/
def validKeyNames (s : KMState) : List String :=
  (getValidKeys s).map ApiKeyInfo.key

theorem markKeyFailedUpdate_key (error : String) (now : Nat) (y : ApiKeyInfo) :
    (markKeyFailedUpdate error now y).key = y.key := by
  unfold markKeyFailedUpdate
  dsimp only
  split
  · rfl
  · split <;> rfl

theorem updateFirstKey_eq_map (f : ApiKeyInfo → ApiKeyInfo) (key : String) :
    ∀ l : List ApiKeyInfo, (l.map ApiKeyInfo.key).Nodup →
      ∀ info ∈ l, info.key = key →
        updateFirstKey f key l = l.map (fun y => if y.key = key then f y else y) := by
  intro l
  induction l with
  | nil => intro _ info hmem; exact absurd hmem (List.not_mem_nil info)
  | cons y ys ih =>
    intro hnd info hmem hkey
    by_cases hy : y.key = key
    · have hys : ∀ z ∈ ys, z.key ≠ key := by
        intro z hz hzk
        have : y.key ∈ ys.map ApiKeyInfo.key := by
          rw [hy, ← hzk]
          exact List.mem_map_of_mem ApiKeyInfo.key hz
        exact (List.nodup_cons.mp (by simpa using hnd)).1 this
      have hmapself : ys.map (fun z => if z.key = key then f z else z) = ys := by
        have h1 : ys.map (fun z => if z.key = key then f z else z) = ys.map id :=
          List.map_congr_left (fun z hz => by simp [hys z hz])
        rw [h1, List.map_id]
      simp [updateFirstKey, hy, hmapself]
    · have hinfo : info ∈ ys := by
        rcases List.mem_cons.mp hmem with h | h
        · exact absurd (h ▸ hkey) hy
        · exact h
      have hndt : (ys.map ApiKeyInfo.key).Nodup := (List.nodup_cons.mp (by simpa using hnd)).2
      simp only [updateFirstKey, if_neg hy, List.map_cons, if_neg hy]
      rw [ih hndt info hinfo hkey]

theorem key_mem_validKeyNames_updateFirst (s : KMState) (f : ApiKeyInfo → ApiKeyInfo)
    (key : String) (hf : ∀ y, (f y).key = y.key)
    (hnd : (s.keys.map ApiKeyInfo.key).Nodup)
    (info : ApiKeyInfo) (hmem : info ∈ s.keys) (hkey : info.key = key) :
    (key ∈ validKeyNames { s with keys := updateFirstKey f key s.keys } ↔
      ((f info).isValid && decide ((f info).errorCount < maxErrorCount)) = true) := by
  have hinj : ∀ x ∈ s.keys, ∀ y ∈ s.keys, x.key = y.key → x = y :=
    List.inj_on_of_nodup_map hnd
  unfold validKeyNames getValidKeys
  rw [updateFirstKey_eq_map f key s.keys hnd info hmem hkey]
  simp only [List.mem_map, List.mem_filter]
  constructor
  · rintro ⟨x, ⟨⟨x0, hx0, rfl⟩, hP⟩, hxkey⟩
    by_cases hx0k : x0.key = key
    · have : x0 = info := hinj x0 hx0 info hmem (by rw [hx0k, hkey])
      subst this
      simpa [hx0k] using hP
    · rw [if_neg hx0k] at hP hxkey
      exact absurd hxkey hx0k
  · intro hP
    refine ⟨f info, ⟨⟨info, hmem, by rw [if_pos hkey]⟩, hP⟩, by rw [hf, hkey]⟩

/-- C4: `getNextKey` only returns credentials that are valid with error count
below the threshold (3); `markKeyFailed` with a permanent signal removes the
credential from selection immediately; a transient failure keeps it selectable
while the incremented count stays below the threshold and removes it once the
count reaches the threshold; `markKeySuccess` makes it selectable again with
error count 0. -/
theorem C4_selection_invariant :
    (∀ s k s', getNextKey s = some (k, s') →
      ∃ info, info ∈ s.keys ∧ info.key = k ∧ info.isValid = true ∧
        info.errorCount < maxErrorCount) ∧
    (∀ (s : KMState) key error (now : Nat),
      (s.keys.map ApiKeyInfo.key).Nodup →
      ∀ info ∈ s.keys, info.key = key →
        (isPermanentError error = true →
          key ∉ validKeyNames (markKeyFailed s key error now)) ∧
        (isPermanentError error = false → info.isValid = true →
          ((info.errorCount + 1 < maxErrorCount →
              key ∈ validKeyNames (markKeyFailed s key error now)) ∧
           (maxErrorCount ≤ info.errorCount + 1 →
              key ∉ validKeyNames (markKeyFailed s key error now)))) ∧
        key ∈ validKeyNames (markKeySuccess s key now)) := by
  constructor
  · intro s k s' h
    unfold getNextKey at h
    by_cases hlen : (getValidKeys s).length = 0
    · rw [if_pos hlen] at h; exact absurd h (by simp)
    · rw [if_neg hlen] at h
      have hidx : s.currentIndex % (getValidKeys s).length < (getValidKeys s).length :=
        Nat.mod_lt _ (Nat.pos_of_ne_zero hlen)
      have hmemv : (getValidKeys s).getD (s.currentIndex % (getValidKeys s).length)
          (freshKey "") ∈ getValidKeys s := by
        rw [List.getD_eq_getElem _ _ hidx]
        exact List.getElem_mem _
    -- the selected element belongs to the filtered list
      have hmemv' := hmemv
      unfold getValidKeys at hmemv'
      have hsplit := List.mem_filter.mp hmemv'
      refine ⟨_, hsplit.1, ?_, ?_, ?_⟩
      · have := congrArg Prod.fst (Option.some.inj h)
        exact this
      · exact (Bool.and_eq_true _ _ |>.mp hsplit.2).1
      · exact of_decide_eq_true (Bool.and_eq_true _ _ |>.mp hsplit.2).2
  · intro s key error now hnd info hmem hkey
    have hmain := key_mem_validKeyNames_updateFirst s (markKeyFailedUpdate error now) key
      (markKeyFailedUpdate_key error now) hnd info hmem hkey
    have hsucc := key_mem_validKeyNames_updateFirst s (markKeySuccessUpdate now) key
      (fun y => rfl) hnd info hmem hkey
    refine ⟨?_, ?_, ?_⟩
    · intro hperm hmemk
      have := hmain.mp hmemk
      simp [markKeyFailedUpdate, hperm] at this
    · intro hperm hvalid
      constructor
      · intro hlt
        refine hmain.mpr ?_
        have hnotge : ¬ (maxErrorCount ≤ info.errorCount + 1) := Nat.not_le_of_lt hlt
        simp [markKeyFailedUpdate, hperm, hnotge, hvalid, hlt]
      · intro hge hmemk
        have := hmain.mp hmemk
        simp [markKeyFailedUpdate, hperm, hge] at this
    · refine hsucc.mpr ?_
      simp [markKeySuccessUpdate, maxErrorCount]

/-- Witness for `C4_selection_invariant` at a concrete pool: the first
conjunct applied to the fresh two-key pool, the second to a report of a
permanent failure on key "keyA". -/
theorem C4_selection_invariant_witness :
    (∃ info, info ∈ twoKeyPool.keys ∧ info.key = "keyA" ∧ info.isValid = true ∧
      info.errorCount < maxErrorCount) ∧
    "keyA" ∉ validKeyNames (markKeyFailed twoKeyPool "keyA" "PERMISSION_DENIED" 5) := by
  constructor
  · exact C4_selection_invariant.1 twoKeyPool "keyA"
      { keys := [freshKey "keyA", freshKey "keyB"], currentIndex := 1 } (by decide)
  · exact ((C4_selection_invariant.2 twoKeyPool "keyA" "PERMISSION_DENIED" 5 (by decide)
      (freshKey "keyA") (by decide) rfl).1) (by decide)

/-- C1: on a fresh two-key pool, an attempt whose upstream call fails with
"Invalid API key" acquires and uses "keyA", but the failure report
(`markKeyFailed`) is applied to "keyB" — the key the catch block freshly
acquires from the rotation — leaving the used key's error count untouched
and penalising the unused key. -/
theorem C1_failure_reported_for_unused_key :
    (chatCompletionFailedAttempt twoKeyPool "Invalid API key" 100).usedKey = some "keyA" ∧
    (chatCompletionFailedAttempt twoKeyPool "Invalid API key" 100).markedKey = some "keyB" ∧
    (chatCompletionFailedAttempt twoKeyPool "Invalid API key" 100).markedKey ≠
      (chatCompletionFailedAttempt twoKeyPool "Invalid API key" 100).usedKey ∧
    ((chatCompletionFailedAttempt twoKeyPool "Invalid API key" 100).state.keys.map
      (fun k => (k.key, k.errorCount, k.isValid)))
        = [("keyA", 0, true), ("keyB", 3, false)] := by
  decide

/-- C9 counterexample: for a credential whose secret is "short" (5
characters), the per-key view of `getKeyStats` is "short...", which contains
the full secret — not a proper prefix of it. -/
theorem C9_counterexample :
    (getKeyStats { keys := [freshKey "short"], currentIndex := 0 }).keys.map KeyStatEntry.key
        = ["short..."] ∧
    strContains "short..." "short" = true := by
  decide

/-- C9 amended: the per-key view of `getKeyStats` is the first
`min 8 (length secret)` characters of the secret followed by "...": a proper
prefix exactly when the secret is longer than 8 characters, while for secrets
of at most 8 characters the view contains the full secret. -/
theorem C9_redacted_view :
    (∀ st : KMState, (getKeyStats st).keys.map KeyStatEntry.key
        = st.keys.map (fun info => redactKey info.key)) ∧
    (∀ s : String,
      (redactKey s).data = s.data.take 8 ++ ('.' :: '.' :: '.' :: []) ∧
      (s.data.length ≤ 8 → (redactKey s).data = s.data ++ ('.' :: '.' :: '.' :: [])) ∧
      (8 < s.data.length → s.data.take 8 ≠ s.data)) := by
  constructor
  · intro st
    simp [getKeyStats, List.map_map, Function.comp]
  · intro s
    refine ⟨rfl, ?_, ?_⟩
    · intro h
      simp [redactKey, List.take_of_length_le h]
    · intro h heq
      have hlen := congrArg List.length heq
      simp [List.length_take] at hlen
      have hsd : s.length = s.data.length := rfl
      omega

/-- Witness for `C9_redacted_view` at a 10-character secret. -/
theorem C9_redacted_view_witness :
    8 < ("0123456789" : String).data.length ∧
      ("0123456789" : String).data.take 8 ≠ ("0123456789" : String).data :=
  ⟨by decide, (C9_redacted_view.2 "0123456789").2.2 (by decide)⟩

/-! ## Round-robin rotation (claim C5) -/

/-- The keys returned by `n` consecutive `getNextKey` calls with no other
operation in between (the run stops early if `getNextKey` throws). -/
def runKeys : KMState → Nat → List String
  | _, 0 => []
  | s, n + 1 =>
    match getNextKey s with
    | none => []
    | some (k, s') => k :: runKeys s' n

/-- A pool where every credential is healthy. -/
def AllHealthy (keys : List ApiKeyInfo) : Prop :=
  ∀ k ∈ keys, k.isValid = true ∧ k.errorCount < maxErrorCount

theorem getValidKeys_of_allHealthy (keys : List ApiKeyInfo) (i0 : Nat)
    (h : AllHealthy keys) : getValidKeys { keys := keys, currentIndex := i0 } = keys := by
  unfold getValidKeys
  rw [List.filter_eq_self]
  intro a ha
  have := h a ha
  simp [this.1, this.2]

theorem getNextKey_of_allHealthy (keys : List ApiKeyInfo) (i0 : Nat)
    (h : AllHealthy keys) (hne : keys ≠ []) :
    getNextKey { keys := keys, currentIndex := i0 } =
      some ((keys.getD (i0 % keys.length) (freshKey "")).key,
        { keys := keys, currentIndex := (i0 + 1) % keys.length }) := by
  have hval := getValidKeys_of_allHealthy keys i0 h
  have hlen : ¬ (getValidKeys { keys := keys, currentIndex := i0 }).length = 0 := by
    rw [hval]
    exact fun h0 => hne (List.length_eq_zero.mp h0)
  unfold getNextKey
  rw [if_neg hlen, hval]

theorem runKeys_of_allHealthy (keys : List ApiKeyInfo)
    (h : AllHealthy keys) (hne : keys ≠ []) :
    ∀ (n i0 : Nat), runKeys { keys := keys, currentIndex := i0 } n =
      (List.range n).map
        (fun j => (keys.map ApiKeyInfo.key).getD ((i0 + j) % keys.length) "") := by
  intro n
  induction n with
  | zero => intro i0; rfl
  | succ n ih =>
    intro i0
    rw [show runKeys { keys := keys, currentIndex := i0 } (n + 1) =
        (match getNextKey { keys := keys, currentIndex := i0 } with
          | none => []
          | some (k, s') => k :: runKeys s' n) from rfl,
      getNextKey_of_allHealthy keys i0 h hne]
    show (keys.getD (i0 % keys.length) (freshKey "")).key ::
        runKeys { keys := keys, currentIndex := (i0 + 1) % keys.length } n = _
    rw [ih ((i0 + 1) % keys.length)]
    rw [List.range_succ_eq_map, List.map_cons, List.map_map]
    congr 1
    · exact (List.getD_map (l := keys) (d := freshKey "") (n := i0 % keys.length)
        ApiKeyInfo.key).symm
    · apply List.map_congr_left
      intro j _
      simp only [Function.comp]
      congr 1
      rw [Nat.mod_add_mod]
      have harith : i0 + 1 + j = i0 + (j + 1) := by omega
      rw [harith]

/-- C5: on a pool of healthy credentials, `keys.length` consecutive
`getNextKey` calls return the credential secrets as the rotation of the
pool's key list starting at the current index — in particular a permutation
of the pool, each secret exactly once. -/
theorem C5_round_robin (keys : List ApiKeyInfo) (i0 : Nat)
    (h : AllHealthy keys) (hne : keys ≠ []) :
    runKeys { keys := keys, currentIndex := i0 } keys.length
        = (keys.map ApiKeyInfo.key).rotate i0 ∧
    (runKeys { keys := keys, currentIndex := i0 } keys.length).Perm
        (keys.map ApiKeyInfo.key) := by
  have hpos : 0 < keys.length := List.length_pos.mpr hne
  have hmain : runKeys { keys := keys, currentIndex := i0 } keys.length
      = (keys.map ApiKeyInfo.key).rotate i0 := by
    rw [runKeys_of_allHealthy keys h hne keys.length i0]
    apply List.ext_getElem
    · simp
    · intro j h1 h2
      rw [List.getElem_map, List.getElem_range, List.getElem_rotate]
      simp only [List.length_map]
      rw [Nat.add_comm i0 j]
      rw [List.getD_eq_getElem _ _ (by
        rw [List.length_map]
        exact Nat.mod_lt _ hpos)]
  exact ⟨hmain, hmain ▸ List.rotate_perm _ _⟩

/-- Witness for `C5_round_robin` on the fresh two-key pool. -/
theorem C5_round_robin_witness :
    AllHealthy twoKeyPool.keys ∧ twoKeyPool.keys ≠ [] ∧
    runKeys twoKeyPool twoKeyPool.keys.length = ["keyA", "keyB"] := by
  have h1 : AllHealthy twoKeyPool.keys := by
    unfold AllHealthy
    decide
  have h2 : twoKeyPool.keys ≠ [] := by decide
  refine ⟨h1, h2, ?_⟩
  have := (C5_round_robin twoKeyPool.keys 0 h1 h2).1
  simpa [twoKeyPool, freshKey, List.rotate] using this

/-! ## Rate Limiter (src/lib/api/rate-limiter.ts)

`checkRateLimit` touches exactly two cache entries: the global per-minute
bucket and the per-IP per-day bucket of the current request. The embedding
takes the current contents of those two entries (`none` when absent or
expired) plus `now` and the two configured ceilings, and returns the result
together with the values written back (`none` = no `cache.set` performed). -/

structure RateLimitInfo where
  count : Nat
  resetTime : Nat
deriving DecidableEq, Repr

structure RateLimitResult where
  allowed : Bool
  retryAfter : Option Nat
  error : Option String
deriving DecidableEq, Repr

/-- Embedding of `Math.ceil((resetTime - now) / 1000)` on the in-window case
(`now ≤ resetTime`; natural subtraction truncates the already-expired case). -/
def retrySeconds (resetTime now : Nat) : Nat :=
  (resetTime - now + 999) / 1000

/-- Default minute bucket: `{count: 0, resetTime: floor(now/60000)*60000 + 60000}`. -/
def defaultMinuteData (now : Nat) : RateLimitInfo :=
  { count := 0, resetTime := now / 60000 * 60000 + 60000 }

/-- Default day bucket: `{count: 0, resetTime: floor(now/86400000)*86400000 + 86400000}`. -/
def defaultDayData (now : Nat) : RateLimitInfo :=
  { count := 0, resetTime := now / 86400000 * 86400000 + 86400000 }

/-- Embedding of `RateLimiter.checkRateLimit`. Returns the result together
with the written-back minute and day entries. -/
def checkRateLimit (minuteEntry dayEntry : Option RateLimitInfo)
    (now maxRequestsPerMinute maxRequestsPerDayPerIP : Nat) :
    RateLimitResult × Option RateLimitInfo × Option RateLimitInfo :=
  let minuteData := minuteEntry.getD (defaultMinuteData now)
  if maxRequestsPerMinute ≤ minuteData.count then
    ({ allowed := false
       retryAfter := some (retrySeconds minuteData.resetTime now)
       error := some ("Rate limit exceeded: " ++ toString maxRequestsPerMinute ++
         " requests per minute") }, none, none)
  else
    let dayData := dayEntry.getD (defaultDayData now)
    if maxRequestsPerDayPerIP ≤ dayData.count then
      ({ allowed := false
         retryAfter := some (retrySeconds dayData.resetTime now)
         error := some ("Rate limit exceeded: " ++ toString maxRequestsPerDayPerIP ++
           " requests per day per IP") }, none, none)
    else
      ({ allowed := true, retryAfter := none, error := none },
        some { minuteData with count := minuteData.count + 1 },
        some { dayData with count := dayData.count + 1 })

/-- C2: the global per-minute ceiling is evaluated before the per-IP per-day
ceiling (a full minute bucket rejects regardless of the day bucket); a
rejection carries `allowed = false` and `retryAfter` equal to the rounded-up
seconds until the rejecting bucket's reset time and writes back neither
counter; an allowed request writes back both counters incremented by exactly
one. -/
theorem C2_check_and_increment (minuteEntry dayEntry : Option RateLimitInfo)
    (now maxMin maxDay : Nat) :
    (maxMin ≤ (minuteEntry.getD (defaultMinuteData now)).count →
      checkRateLimit minuteEntry dayEntry now maxMin maxDay =
        ({ allowed := false
           retryAfter := some
             (retrySeconds (minuteEntry.getD (defaultMinuteData now)).resetTime now)
           error := some ("Rate limit exceeded: " ++ toString maxMin ++
             " requests per minute") }, none, none)) ∧
    ((minuteEntry.getD (defaultMinuteData now)).count < maxMin →
      maxDay ≤ (dayEntry.getD (defaultDayData now)).count →
      checkRateLimit minuteEntry dayEntry now maxMin maxDay =
        ({ allowed := false
           retryAfter := some
             (retrySeconds (dayEntry.getD (defaultDayData now)).resetTime now)
           error := some ("Rate limit exceeded: " ++ toString maxDay ++
             " requests per day per IP") }, none, none)) ∧
    ((minuteEntry.getD (defaultMinuteData now)).count < maxMin →
      (dayEntry.getD (defaultDayData now)).count < maxDay →
      checkRateLimit minuteEntry dayEntry now maxMin maxDay =
        ({ allowed := true, retryAfter := none, error := none },
          some { minuteEntry.getD (defaultMinuteData now) with
            count := (minuteEntry.getD (defaultMinuteData now)).count + 1 },
          some { dayEntry.getD (defaultDayData now) with
            count := (dayEntry.getD (defaultDayData now)).count + 1 })) := by
  refine ⟨?_, ?_, ?_⟩
  · intro hge
    unfold checkRateLimit
    rw [if_pos hge]
  · intro hlt hge
    unfold checkRateLimit
    rw [if_neg (Nat.not_le_of_lt hlt), if_pos hge]
  · intro hmin hday
    unfold checkRateLimit
    rw [if_neg (Nat.not_le_of_lt hmin), if_neg (Nat.not_le_of_lt hday)]

/-- Witness for `C2_check_and_increment`: a full minute bucket (30 of 30,
even with an empty day bucket) rejects with 42 seconds of retry delay and no
writes; a below-ceiling pair of buckets is allowed and both counters are
written back incremented. -/
theorem C2_check_and_increment_witness :
    (30 ≤ ((some { count := 30, resetTime := 1041500 } :
        Option RateLimitInfo).getD (defaultMinuteData 1000000)).count ∧
      checkRateLimit (some { count := 30, resetTime := 1041500 }) none 1000000 30 600 =
        ({ allowed := false, retryAfter := some 42,
           error := some "Rate limit exceeded: 30 requests per minute" }, none, none)) ∧
    (checkRateLimit (some { count := 3, resetTime := 1041500 })
        (some { count := 17, resetTime := 87000000 }) 1000000 30 600 =
      ({ allowed := true, retryAfter := none, error := none },
        some { count := 4, resetTime := 1041500 },
        some { count := 18, resetTime := 87000000 })) := by
  refine ⟨⟨by decide, ?_⟩, ?_⟩
  · have h := (C2_check_and_increment (some { count := 30, resetTime := 1041500 }) none
      1000000 30 600).1 (by decide)
    rw [h]
    decide
  · have h := ((C2_check_and_increment (some { count := 3, resetTime := 1041500 })
      (some { count := 17, resetTime := 87000000 }) 1000000 30 600).2.2)
      (by decide) (by decide)
    rw [h]
    decide

/-! ## Fake streaming (src/lib/api/fake-streaming.ts)

`splitIntoChunks` works on the word/separator token list produced by
`content.split(/(\s+)/)` (split on whitespace runs, keeping the separators;
JavaScript emits empty-string artifacts at a leading/trailing separator and
for the empty string). -/

/-- Whitespace as matched by the `\s` character class on the ASCII range
(space, tab, line feed, vertical tab, form feed, carriage return). -/
def isWs (c : Char) : Bool :=
  c == ' ' || c == '\t' || c == '\n' || c == Char.ofNat 11 || c == Char.ofNat 12 || c == '\r'

theorem length_dropWhile_le (p : Char → Bool) (l : List Char) :
    (l.dropWhile p).length ≤ l.length := by
  have h := congrArg List.length (List.takeWhile_append_dropWhile p l)
  simp only [List.length_append] at h
  omega

/-- Embedding of `content.split(/(\s+)/)` on character lists: the leading
(possibly empty) maximal non-whitespace run, then alternating maximal
whitespace and non-whitespace runs, keeping the empty non-whitespace runs at
the boundaries exactly as JavaScript does. -/
def jsSplitWs (l : List Char) : List (List Char) :=
  match hrest : l.dropWhile (fun c => !(isWs c)) with
  | [] => [l.takeWhile (fun c => !(isWs c))]
  | c :: t =>
    l.takeWhile (fun c => !(isWs c)) :: (c :: t).takeWhile isWs ::
      jsSplitWs ((c :: t).dropWhile isWs)
termination_by l.length
decreasing_by
  have hws : isWs c = true := by
    have hhead := List.head?_dropWhile_not (fun c => !(isWs c)) l
    rw [hrest] at hhead
    simpa using hhead
  have h2 : (List.dropWhile (fun c => !(isWs c)) l).length ≤ l.length :=
    length_dropWhile_le _ l
  rw [hrest] at h2
  have h4 : (t.dropWhile isWs).length ≤ t.length := length_dropWhile_le _ t
  rw [List.dropWhile_cons_of_pos hws]
  simp only [List.length_cons] at h2
  omega

theorem jsSplitWs_eq_single (l : List Char)
    (h : l.dropWhile (fun c => !(isWs c)) = []) :
    jsSplitWs l = [l.takeWhile (fun c => !(isWs c))] := by
  rw [jsSplitWs]
  split
  · rfl
  · next c t hrest => rw [h] at hrest; exact absurd hrest (by simp)

theorem jsSplitWs_eq_cons (l : List Char) (c : Char) (t : List Char)
    (h : l.dropWhile (fun c => !(isWs c)) = c :: t) :
    jsSplitWs l = l.takeWhile (fun c => !(isWs c)) :: (c :: t).takeWhile isWs ::
      jsSplitWs ((c :: t).dropWhile isWs) := by
  rw [jsSplitWs]
  split
  · next hrest => rw [h] at hrest; exact absurd hrest (by simp)
  · next c' t' hrest =>
    rw [h] at hrest
    obtain ⟨rfl, rfl⟩ : c' = c ∧ t' = t := by
      constructor <;> [exact (List.cons.inj hrest).1.symm; exact (List.cons.inj hrest).2.symm]
    rfl

/-- The head of a nonempty `dropWhile (not whitespace)` result is whitespace. -/
theorem isWs_head_of_dropWhile (l : List Char) (c : Char) (t : List Char)
    (h : l.dropWhile (fun c => !(isWs c)) = c :: t) : isWs c = true := by
  have hhead := List.head?_dropWhile_not (fun c => !(isWs c)) l
  rw [h] at hhead
  simpa using hhead

/-- Word-count scanner: `wcAux false l` counts the maximal non-whitespace
runs of `l`, embedding `currentChunk.split(/\s+/).filter(Boolean).length`.
The flag records whether the scanner is inside a word. -/
def wcAux (inWord : Bool) : List Char → Nat
  | [] => 0
  | c :: t => if isWs c then wcAux false t else (if inWord then 0 else 1) + wcAux true t

/-- Embedding of the `wordCount` computed by `splitIntoChunks`. -/
def wordCount (l : List Char) : Nat :=
  wcAux false l

/-- Truthiness of `chunk.trim()`: the chunk has some non-whitespace
character. -/
def hasNonWs (l : List Char) : Bool :=
  l.any (fun c => !(isWs c))

/-- `maxChunkSize` from `splitIntoChunks`. -/
def maxChunkSize : Nat := 10

/-- The `for` loop of `splitIntoChunks` over the token list, with the
trailing flush of `currentChunk`. -/
def splitLoop : List (List Char) → List Char → List (List Char) → List (List Char)
  | [], currentChunk, chunks =>
    if hasNonWs currentChunk then chunks ++ [currentChunk] else chunks
  | word :: words, currentChunk, chunks =>
    if maxChunkSize ≤ wordCount currentChunk ∧ hasNonWs currentChunk = true then
      splitLoop words word (chunks ++ [currentChunk])
    else
      splitLoop words (currentChunk ++ word) chunks

/-- Embedding of `FakeStreamingManager.splitIntoChunks`. -/
def splitIntoChunks (content : List Char) : List (List Char) :=
  (splitLoop (jsSplitWs content) [] []).filter hasNonWs

/-! ### Properties of the tokenisation -/

theorem jsSplitWs_flatten (l : List Char) : (jsSplitWs l).flatten = l := by
  cases hrest : l.dropWhile (fun c => !(isWs c)) with
  | nil =>
    rw [jsSplitWs_eq_single l hrest]
    have h := List.takeWhile_append_dropWhile (fun c => !(isWs c)) l
    rw [hrest, List.append_nil] at h
    simpa using h
  | cons c t =>
    rw [jsSplitWs_eq_cons l c t hrest]
    have hws : isWs c = true := isWs_head_of_dropWhile l c t hrest
    have hlt : ((c :: t).dropWhile isWs).length < l.length := by
      have h2 : (List.dropWhile (fun c => !(isWs c)) l).length ≤ l.length :=
        length_dropWhile_le _ l
      rw [hrest] at h2
      have h4 : (t.dropWhile isWs).length ≤ t.length := length_dropWhile_le _ t
      rw [List.dropWhile_cons_of_pos hws]
      simp only [List.length_cons] at h2
      omega
    have hrec := jsSplitWs_flatten ((c :: t).dropWhile isWs)
    simp only [List.flatten_cons]
    rw [hrec]
    rw [List.takeWhile_append_dropWhile isWs (c :: t), ← hrest]
    exact List.takeWhile_append_dropWhile _ l
termination_by l.length

/-! ### Properties of the word counter -/

/-- The scanner state after reading `a` starting in state `s`. -/
def wcState (s : Bool) (a : List Char) : Bool :=
  a.foldl (fun _ c => !(isWs c)) s

theorem wcAux_append (b : List Char) : ∀ (a : List Char) (s : Bool),
    wcAux s (a ++ b) = wcAux s a + wcAux (wcState s a) b := by
  intro a
  induction a with
  | nil => intro s; simp [wcAux, wcState]
  | cons c a' ih =>
    intro s
    rw [List.cons_append]
    have e1 : wcAux s (c :: (a' ++ b)) =
        if isWs c then wcAux false (a' ++ b)
        else (if s then 0 else 1) + wcAux true (a' ++ b) := rfl
    have e2 : wcAux s (c :: a') =
        if isWs c then wcAux false a' else (if s then 0 else 1) + wcAux true a' := rfl
    have e3 : wcState s (c :: a') = wcState (!(isWs c)) a' := rfl
    rw [e1, e2, e3]
    by_cases hc : isWs c = true
    · simp only [hc, if_true, Bool.not_true]
      exact ih false
    · have hc' : isWs c = false := Bool.not_eq_true _ |>.mp hc
      simp only [hc', Bool.false_eq_true, if_false, Bool.not_false]
      rw [ih true]
      omega

theorem wcAux_true_le (l : List Char) : wcAux true l ≤ wcAux false l := by
  induction l with
  | nil => simp [wcAux]
  | cons c t ih =>
    by_cases hc : isWs c = true <;> simp [wcAux, hc]

theorem wcAux_le_wordCount (s : Bool) (l : List Char) : wcAux s l ≤ wordCount l := by
  cases s
  · exact Nat.le_refl _
  · exact wcAux_true_le l

theorem wordCount_append_le (a b : List Char) :
    wordCount (a ++ b) ≤ wordCount a + wordCount b := by
  unfold wordCount
  rw [wcAux_append b a false]
  exact Nat.add_le_add_left (wcAux_le_wordCount _ b) _

theorem wcAux_of_all_ws (l : List Char) (h : ∀ c ∈ l, isWs c = true) :
    ∀ s, wcAux s l = 0 := by
  induction l with
  | nil => intro s; rfl
  | cons c t ih =>
    intro s
    have hc := h c (List.mem_cons_self c t)
    simp only [wcAux, hc, if_pos]
    exact ih (fun c hc' => h c (List.mem_cons_of_mem _ hc')) false

theorem wordCount_of_not_hasNonWs (l : List Char) (h : hasNonWs l = false) :
    wordCount l = 0 := by
  apply wcAux_of_all_ws
  intro c hc
  have := List.any_eq_false.mp h c hc
  simpa using this

theorem wcAux_true_of_all_nonws (l : List Char) (h : ∀ c ∈ l, isWs c = false) :
    wcAux true l = 0 := by
  induction l with
  | nil => rfl
  | cons c t ih =>
    have hc := h c (List.mem_cons_self c t)
    have e1 : wcAux true (c :: t) =
        if isWs c then wcAux false t else (if true then 0 else 1) + wcAux true t := rfl
    rw [e1]
    simp only [hc, Bool.false_eq_true, if_false, if_true, Nat.zero_add]
    exact ih (fun c hc' => h c (List.mem_cons_of_mem _ hc'))

theorem wordCount_le_one_of_all_nonws (l : List Char) (h : ∀ c ∈ l, isWs c = false) :
    wordCount l ≤ 1 := by
  cases l with
  | nil => exact Nat.zero_le 1
  | cons c t =>
    have hc := h c (List.mem_cons_self c t)
    unfold wordCount wcAux
    simp only [hc, Bool.false_eq_true, if_false]
    rw [wcAux_true_of_all_nonws t (fun c hc' => h c (List.mem_cons_of_mem _ hc'))]

/-- Every token produced by `jsSplitWs` contains at most one word. -/
theorem wordCount_token_le_one (l : List Char) :
    ∀ tok ∈ jsSplitWs l, wordCount tok ≤ 1 := by
  cases hrest : l.dropWhile (fun c => !(isWs c)) with
  | nil =>
    rw [jsSplitWs_eq_single l hrest]
    intro tok htok
    rw [List.mem_singleton] at htok
    subst htok
    apply wordCount_le_one_of_all_nonws
    intro c hc
    have := List.mem_takeWhile_imp hc
    simpa using this
  | cons c t =>
    rw [jsSplitWs_eq_cons l c t hrest]
    have hws : isWs c = true := isWs_head_of_dropWhile l c t hrest
    have hlt : ((c :: t).dropWhile isWs).length < l.length := by
      have h2 : (List.dropWhile (fun c => !(isWs c)) l).length ≤ l.length :=
        length_dropWhile_le _ l
      rw [hrest] at h2
      have h4 : (t.dropWhile isWs).length ≤ t.length := length_dropWhile_le _ t
      rw [List.dropWhile_cons_of_pos hws]
      simp only [List.length_cons] at h2
      omega
    intro tok htok
    rcases List.mem_cons.mp htok with h1 | htok'
    · subst h1
      apply wordCount_le_one_of_all_nonws
      intro ch hch
      have := List.mem_takeWhile_imp hch
      simpa using this
    · rcases List.mem_cons.mp htok' with h2 | htok''
      · subst h2
        have hall : ∀ ch ∈ (c :: t).takeWhile isWs, isWs ch = true :=
          fun ch hch => List.mem_takeWhile_imp hch
        unfold wordCount
        rw [wcAux_of_all_ws _ hall false]
        exact Nat.zero_le 1
      · exact wordCount_token_le_one ((c :: t).dropWhile isWs) tok htok''
termination_by l.length

/-! ### Properties of the chunking loop -/

theorem splitLoop_all_hasNonWs : ∀ (ts : List (List Char)) (cur : List Char)
    (chunks : List (List Char)), (∀ x ∈ chunks, hasNonWs x = true) →
    ∀ x ∈ splitLoop ts cur chunks, hasNonWs x = true := by
  intro ts
  induction ts with
  | nil =>
    intro cur chunks hch x hx
    unfold splitLoop at hx
    by_cases hc : hasNonWs cur = true
    · rw [if_pos hc] at hx
      rcases List.mem_append.mp hx with h | h
      · exact hch x h
      · rw [List.mem_singleton] at h; subst h; exact hc
    · rw [if_neg hc] at hx
      exact hch x hx
  | cons t ts ih =>
    intro cur chunks hch x hx
    unfold splitLoop at hx
    by_cases hg : maxChunkSize ≤ wordCount cur ∧ hasNonWs cur = true
    · rw [if_pos hg] at hx
      refine ih t (chunks ++ [cur]) ?_ x hx
      intro y hy
      rcases List.mem_append.mp hy with h | h
      · exact hch y h
      · rw [List.mem_singleton] at h; subst h; exact hg.2
    · rw [if_neg hg] at hx
      exact ih (cur ++ t) chunks hch x hx

theorem splitLoop_flatten : ∀ (ts : List (List Char)) (cur : List Char)
    (chunks : List (List Char)),
    ∃ dropped : List Char, hasNonWs dropped = false ∧
      (splitLoop ts cur chunks).flatten ++ dropped
        = chunks.flatten ++ cur ++ ts.flatten := by
  intro ts
  induction ts with
  | nil =>
    intro cur chunks
    unfold splitLoop
    by_cases hc : hasNonWs cur = true
    · exact ⟨[], rfl, by simp [hc]⟩
    · refine ⟨cur, by simpa using hc, ?_⟩
      simp [hc]
  | cons t ts ih =>
    intro cur chunks
    unfold splitLoop
    by_cases hg : maxChunkSize ≤ wordCount cur ∧ hasNonWs cur = true
    · rw [if_pos hg]
      obtain ⟨dropped, hd, heq⟩ := ih t (chunks ++ [cur])
      refine ⟨dropped, hd, ?_⟩
      rw [heq]
      simp [List.append_assoc]
    · rw [if_neg hg]
      obtain ⟨dropped, hd, heq⟩ := ih (cur ++ t) chunks
      refine ⟨dropped, hd, ?_⟩
      rw [heq]
      simp [List.append_assoc]

/-- C10: for a non-empty completion text whose final character is not
whitespace, the chunks produced by `splitIntoChunks` concatenate (in order)
back to the original text, and every chunk contains at least one
non-whitespace character. -/
theorem C10_chunks_concat (content : List Char) (h1 : content ≠ [])
    (h2 : isWs (content.getLast h1) = false) :
    (splitIntoChunks content).flatten = content ∧
    ∀ c ∈ splitIntoChunks content, hasNonWs c = true := by
  have hall : ∀ x ∈ splitLoop (jsSplitWs content) [] [], hasNonWs x = true :=
    splitLoop_all_hasNonWs (jsSplitWs content) [] [] (by intro x hx; cases hx)
  have hfilter : splitIntoChunks content = splitLoop (jsSplitWs content) [] [] := by
    unfold splitIntoChunks
    exact List.filter_eq_self.mpr hall
  obtain ⟨dropped, hd, heq⟩ := splitLoop_flatten (jsSplitWs content) [] []
  rw [List.flatten_nil, List.nil_append, List.nil_append, jsSplitWs_flatten] at heq
  have hdropped : dropped = [] := by
    by_contra hne
    have hlast : dropped.getLast hne ∈ dropped := List.getLast_mem hne
    have hlastws : isWs (dropped.getLast hne) = true := by
      have := List.any_eq_false.mp hd _ hlast
      simpa using this
    have e1 : content.getLast? = some (content.getLast h1) :=
      List.getLast?_eq_getLast content h1
    have e2 : content.getLast? = some (dropped.getLast hne) := by
      rw [← heq, List.getLast?_append, List.getLast?_eq_getLast dropped hne]
      rfl
    have : content.getLast h1 = dropped.getLast hne :=
      Option.some.inj (e1.symm.trans e2)
    rw [this, hlastws] at h2
    exact absurd h2 (by simp)
  subst hdropped
  rw [List.append_nil] at heq
  rw [hfilter]
  exact ⟨heq, fun c hc => hall c hc⟩

/-- Witness for `C10_chunks_concat` on an 11-word text. -/
theorem C10_chunks_concat_witness :
    ("w1 w2 w3 w4 w5 w6 w7 w8 w9 w10 w11".data ≠ [] ∧
      (splitIntoChunks "w1 w2 w3 w4 w5 w6 w7 w8 w9 w10 w11".data).flatten =
        "w1 w2 w3 w4 w5 w6 w7 w8 w9 w10 w11".data) := by
  refine ⟨by decide, (C10_chunks_concat "w1 w2 w3 w4 w5 w6 w7 w8 w9 w10 w11".data
    (by decide) ?_).1⟩
  decide

/-- Every chunk the loop keeps holds at most `maxChunkSize` words, so the
total word count is bounded by `maxChunkSize` per produced chunk. -/
theorem splitLoop_wordCount_bound : ∀ (ts : List (List Char)) (cur : List Char)
    (chunks : List (List Char)), wordCount cur ≤ maxChunkSize →
    (∀ t ∈ ts, wordCount t ≤ 1) →
    wordCount (cur ++ ts.flatten) + maxChunkSize * chunks.length ≤
      maxChunkSize * (splitLoop ts cur chunks).length := by
  intro ts
  induction ts with
  | nil =>
    intro cur chunks hcur _
    rw [List.flatten_nil, List.append_nil]
    unfold splitLoop
    by_cases hc : hasNonWs cur = true
    · rw [if_pos hc, List.length_append, List.length_singleton]
      have : maxChunkSize * (chunks.length + 1) = maxChunkSize * chunks.length + maxChunkSize :=
        Nat.mul_succ _ _
      omega
    · rw [if_neg hc, wordCount_of_not_hasNonWs cur (by simpa using hc)]
      omega
  | cons t ts ih =>
    intro cur chunks hcur htok
    have htok' : ∀ x ∈ ts, wordCount x ≤ 1 := fun x hx => htok x (List.mem_cons_of_mem _ hx)
    have htokt : wordCount t ≤ 1 := htok t (List.mem_cons_self t ts)
    rw [List.flatten_cons]
    unfold splitLoop
    by_cases hg : maxChunkSize ≤ wordCount cur ∧ hasNonWs cur = true
    · rw [if_pos hg]
      have hih := ih t (chunks ++ [cur]) (Nat.le_trans htokt (by norm_num [maxChunkSize])) htok'
      rw [List.length_append, List.length_singleton] at hih
      have hsplit : wordCount (cur ++ (t ++ ts.flatten)) ≤
          wordCount cur + wordCount (t ++ ts.flatten) := wordCount_append_le _ _
      have hmul : maxChunkSize * (chunks.length + 1) =
          maxChunkSize * chunks.length + maxChunkSize := Nat.mul_succ _ _
      omega
    · rw [if_neg hg]
      have hcur' : wordCount (cur ++ t) ≤ maxChunkSize := by
        have hsub := wordCount_append_le cur t
        by_cases hnw : hasNonWs cur = true
        · have hlt : ¬ (maxChunkSize ≤ wordCount cur) := fun hle => hg ⟨hle, hnw⟩
          unfold maxChunkSize at *
          omega
        · rw [wordCount_of_not_hasNonWs cur (by simpa using hnw)] at hsub
          unfold maxChunkSize at *
          omega
      have hih := ih (cur ++ t) chunks hcur' htok'
      rw [List.append_assoc] at hih
      exact hih

/-- More than `maxChunkSize` words in the completion text force at least two
chunks out of `splitIntoChunks`. -/
theorem two_le_splitIntoChunks (content : List Char)
    (h : maxChunkSize < wordCount content) : 2 ≤ (splitIntoChunks content).length := by
  have htok := wordCount_token_le_one content
  have hb := splitLoop_wordCount_bound (jsSplitWs content) [] []
    (by rw [wordCount]; exact Nat.zero_le _) htok
  rw [List.nil_append, jsSplitWs_flatten] at hb
  have hfilter : splitIntoChunks content = splitLoop (jsSplitWs content) [] [] := by
    unfold splitIntoChunks
    exact List.filter_eq_self.mpr
      (splitLoop_all_hasNonWs (jsSplitWs content) [] [] (by intro x hx; cases hx))
  rw [hfilter]
  unfold maxChunkSize at *
  omega

/-! ### Fake-streaming frame sequence -/

structure Usage where
  prompt_tokens : Nat
  completion_tokens : Nat
  total_tokens : Nat
deriving DecidableEq, Repr

structure ResponseMessage where
  role : String
  content : List Char
deriving DecidableEq, Repr

structure ResponseChoice where
  index : Nat
  message : ResponseMessage
  finish_reason : String
deriving DecidableEq, Repr

/-- The OpenAI-shaped response produced by
`GeminiClient.convertResponseToOpenAI`. -/
structure GeminiChatResponse where
  id : String
  object : String
  created : Nat
  model : String
  choices : List ResponseChoice
  usage : Usage
deriving DecidableEq, Repr

/-- Embedding of `response.choices[0]?.message?.content || ''`. -/
def contentOf (resp : GeminiChatResponse) : List Char :=
  match resp.choices.head? with
  | some ch => ch.message.content
  | none => []

/-- Embedding of `response.choices[0]?.finish_reason || 'stop'` (an empty
string is falsy in JavaScript). -/
def finishReasonOf (resp : GeminiChatResponse) : String :=
  match resp.choices.head? with
  | some ch => if ch.finish_reason = "" then "stop" else ch.finish_reason
  | none => "stop"

/-- One `data:` frame of the emulated stream, keeping the fields the claims
are about: the content delta (`delta.content`), the finish reason and the
usage object; `done` is the `data: [DONE]` sentinel. -/
inductive SseFrame where
  | frame (deltaContent : Option (List Char)) (finishR : Option String) (usage : Option Usage)
  | done
deriving DecidableEq, Repr

/-- A keep-alive chunk: empty delta, null finish reason, no usage. -/
def keepAliveFrame : SseFrame := SseFrame.frame none none none

/-- An incremental content-delta chunk. -/
def contentDeltaFrame (c : List Char) : SseFrame := SseFrame.frame (some c) none none

/-- The terminal chunk of a successful emulation: empty delta, populated
finish reason, usage attached. -/
def finalFrame (resp : GeminiChatResponse) : SseFrame :=
  SseFrame.frame none (some (finishReasonOf resp)) (some resp.usage)

/-- The frame sequence `handleFakeStreaming` enqueues on the success path:
`k` keep-alive chunks emitted while the upstream call is pending, then (when
the completion text is non-empty) one content delta per chunk of
`splitIntoChunks`, then the final chunk, then the `[DONE]` sentinel. -/
def handleFakeStreamingFrames (k : Nat) (resp : GeminiChatResponse) : List SseFrame :=
  List.replicate k keepAliveFrame ++
    (if contentOf resp ≠ [] then (splitIntoChunks (contentOf resp)).map contentDeltaFrame
      else []) ++
    [finalFrame resp, SseFrame.done]

def isContentDelta : SseFrame → Bool
  | SseFrame.frame (some _) _ _ => true
  | _ => false

def isTerminal : SseFrame → Bool
  | SseFrame.frame _ (some _) _ => true
  | _ => false

/-- C7: a successful fake-streaming emulation of a completion text of more
than `maxChunkSize` (10) words enqueues, in order: only non-terminal frames
(keep-alives and at least two content deltas), then exactly one terminal
chunk whose finish reason is populated and which carries the usage object,
then the `[DONE]` sentinel. -/
theorem C7_fake_streaming_order (k : Nat) (resp : GeminiChatResponse)
    (h : maxChunkSize < wordCount (contentOf resp)) :
    handleFakeStreamingFrames k resp =
      (List.replicate k keepAliveFrame ++
        (splitIntoChunks (contentOf resp)).map contentDeltaFrame) ++
        [SseFrame.frame none (some (finishReasonOf resp)) (some resp.usage),
          SseFrame.done] ∧
    2 ≤ (handleFakeStreamingFrames k resp).countP isContentDelta ∧
    (handleFakeStreamingFrames k resp).countP isTerminal = 1 ∧
    (∀ f ∈ List.replicate k keepAliveFrame ++
        (splitIntoChunks (contentOf resp)).map contentDeltaFrame,
      isTerminal f = false) := by
  have hne : contentOf resp ≠ [] := by
    intro he
    rw [he] at h
    exact absurd h (by decide)
  have hframes : handleFakeStreamingFrames k resp =
      (List.replicate k keepAliveFrame ++
        (splitIntoChunks (contentOf resp)).map contentDeltaFrame) ++
        [SseFrame.frame none (some (finishReasonOf resp)) (some resp.usage),
          SseFrame.done] := by
    unfold handleFakeStreamingFrames
    rw [if_pos hne]
    rfl
  have hpre : ∀ f ∈ List.replicate k keepAliveFrame ++
      (splitIntoChunks (contentOf resp)).map contentDeltaFrame,
      isTerminal f = false := by
    intro f hf
    rcases List.mem_append.mp hf with hrep | hmap
    · rw [List.eq_of_mem_replicate hrep]; rfl
    · obtain ⟨c, _, rfl⟩ := List.mem_map.mp hmap
      rfl
  refine ⟨hframes, ?_, ?_, hpre⟩
  · rw [hframes]
    have hrep : (List.replicate k keepAliveFrame).countP isContentDelta = 0 :=
      List.countP_eq_zero.mpr (fun a ha => by
        rw [List.eq_of_mem_replicate ha]; simp [isContentDelta, keepAliveFrame])
    have hmap : ((splitIntoChunks (contentOf resp)).map contentDeltaFrame).countP
        isContentDelta = (splitIntoChunks (contentOf resp)).length := by
      rw [List.countP_map]
      exact List.countP_eq_length.mpr (fun a _ => rfl)
    rw [List.countP_append, List.countP_append, hrep, hmap]
    have h2 := two_le_splitIntoChunks (contentOf resp) h
    have : ([SseFrame.frame none (some (finishReasonOf resp)) (some resp.usage),
        SseFrame.done] : List SseFrame).countP isContentDelta = 0 := by rfl
    omega
  · rw [hframes, List.countP_append]
    have hpre0 : (List.replicate k keepAliveFrame ++
        (splitIntoChunks (contentOf resp)).map contentDeltaFrame).countP isTerminal = 0 :=
      List.countP_eq_zero.mpr (fun a ha => by rw [hpre a ha]; exact Bool.false_ne_true)
    rw [hpre0]
    rfl

/-- A concrete successful upstream response whose completion text has 11
words. -/
def elevenWordChoice : ResponseChoice :=
  { index := 0
    message := { role := "assistant", content := "w1 w2 w3 w4 w5 w6 w7 w8 w9 w10 w11".data }
    finish_reason := "stop" }

/-- The response carrying `elevenWordChoice`. -/
def elevenWordResp : GeminiChatResponse :=
  { id := "chatcmpl-1"
    object := "chat.completion"
    created := 0
    model := "gemini-2.5-flash"
    choices := [elevenWordChoice]
    usage := { prompt_tokens := 0, completion_tokens := 0, total_tokens := 0 } }

/-- Witness for `C7_fake_streaming_order` on an 11-word completion with one
keep-alive tick. -/
theorem C7_fake_streaming_order_witness :
    maxChunkSize < wordCount (contentOf elevenWordResp) ∧
    2 ≤ (handleFakeStreamingFrames 1 elevenWordResp).countP isContentDelta ∧
    (handleFakeStreamingFrames 1 elevenWordResp).countP isTerminal = 1 :=
  ⟨by decide, (C7_fake_streaming_order 1 elevenWordResp (by decide)).2.1,
    (C7_fake_streaming_order 1 elevenWordResp (by decide)).2.2.1⟩

/-! ## HTTP error mapping (src/app/api/v1/chat/completions/route.ts)

The catch-all of the POST handler inspects the error message:
`includes('Invalid request')` maps to 400, otherwise `includes('No valid')`
maps to 503, otherwise 500. `GeminiClient.chatCompletion` reports retry
exhaustion by throwing
`Failed after ${maxRetries} attempts: ${lastError?.message}`. -/

/-- Embedding of the status-code selection of the POST handler's catch-all. -/
def mapErrorStatus (message : String) : Nat :=
  if strContains message "Invalid request" then 400
  else if strContains message "No valid" then 503
  else 500

/-- The message of the error thrown by `chatCompletion` after exhausting its
retries (`maxRetries = 3`), wrapping the last attempt's error message. -/
def chatCompletionFailMsg (lastMsg : String) : String :=
  "Failed after 3 attempts: " ++ lastMsg

/-- C8 counterexample: when the retries are exhausted by an upstream failure
whose message does not mention "No valid" (e.g. a network failure), the
endpoint maps the exhaustion error to HTTP 500, not 503. -/
theorem C8_counterexample :
    mapErrorStatus (chatCompletionFailMsg "fetch failed") = 500 ∧
    mapErrorStatus (chatCompletionFailMsg "fetch failed") ≠ 503 := by
  constructor <;> decide

/-- C8 amended: an exhaustion error is mapped to HTTP 503 exactly when the
final error message contains "No valid" (and not "Invalid request") — the
no-healthy-credentials case, whose message is
"No valid Gemini API keys available"; any other exhaustion message (without
"Invalid request") is mapped to HTTP 500. -/
theorem C8_error_mapping (lastMsg : String) :
    (strContains (chatCompletionFailMsg lastMsg) "Invalid request" = false →
      strContains lastMsg "No valid" = true →
      mapErrorStatus (chatCompletionFailMsg lastMsg) = 503) ∧
    (strContains (chatCompletionFailMsg lastMsg) "Invalid request" = false →
      strContains (chatCompletionFailMsg lastMsg) "No valid" = false →
      mapErrorStatus (chatCompletionFailMsg lastMsg) = 500) ∧
    mapErrorStatus (chatCompletionFailMsg noValidKeysMsg) = 503 := by
  refine ⟨?_, ?_, by decide⟩
  · intro hno hyes
    unfold mapErrorStatus
    rw [hno]
    have : strContains (chatCompletionFailMsg lastMsg) "No valid" = true := by
      unfold chatCompletionFailMsg
      exact strContains_append_left _ _ _ hyes
    rw [this]
    rfl
  · intro hno hno2
    unfold mapErrorStatus
    rw [hno, hno2]
    rfl

/-- Witness for `C8_error_mapping`: exhaustion wrapping the
no-healthy-credentials message maps to 503. -/
theorem C8_error_mapping_witness :
    strContains (chatCompletionFailMsg noValidKeysMsg) "Invalid request" = false ∧
    strContains noValidKeysMsg "No valid" = true ∧
    mapErrorStatus (chatCompletionFailMsg noValidKeysMsg) = 503 :=
  ⟨by decide, by decide,
    (C8_error_mapping noValidKeysMsg).1 (by decide) (by decide)⟩

/-! ## Concurrent cache manager (src/app/(login)/actions.ts, ConcurrentCacheManager)

`generateCacheKey` hashes `JSON.stringify({model, messages, temperature,
max_tokens, top_p, top_k})` with SHA-256 and uses the hex digest as the cache
key. The request is embedded with its cache-relevant fields; JavaScript
numbers are modelled as rationals and their JSON rendering by an injective
`num/den` rendering (like JavaScript's shortest round-trip rendering, it is
injective on values, which is all the fingerprint depends on). Zod's parse
rebuilds messages with the schema's key order (role, then content), so the
serialisation below uses that fixed key order. -/

structure ContentPart where
  ptype : String
  text : Option String
  image_url : Option String
deriving DecidableEq, Repr

/-- `string | Array<part>` content of a message. -/
inductive MessageContent where
  | str (s : String)
  | parts (ps : List ContentPart)
deriving DecidableEq, Repr

structure GeminiMessage where
  role : String
  content : MessageContent
deriving DecidableEq, Repr

/-- The request fields `ConcurrentCacheManager` reads (`stream` is carried
through but not part of the fingerprint). -/
structure GeminiChatRequest where
  model : String
  messages : List GeminiMessage
  stream : Option Bool
  temperature : Option Rat
  max_tokens : Option Rat
  top_p : Option Rat
  top_k : Option Rat
deriving DecidableEq, Repr

def hexDigitChar (n : Nat) : Char :=
  if n < 10 then Char.ofNat (48 + n) else Char.ofNat (87 + n)

/-- JSON string escaping as performed by `JSON.stringify`. -/
def jsonEscapeChar (c : Char) : List Char :=
  if c = '"' then ['\\', '"']
  else if c = '\\' then ['\\', '\\']
  else if c = '\n' then ['\\', 'n']
  else if c = '\r' then ['\\', 'r']
  else if c = '\t' then ['\\', 't']
  else if c.toNat < 32 then
    ['\\', 'u', '0', '0', hexDigitChar (c.toNat / 16), hexDigitChar (c.toNat % 16)]
  else [c]

def jsonString (s : String) : String :=
  "\"" ++ String.mk (s.data.map jsonEscapeChar).flatten ++ "\""

/-- Decimal digit character. -/
def digitChar (k : Nat) : Char := Char.ofNat (48 + k)

/-- Decimal printer for naturals (most significant digit first). -/
def natRepr (n : Nat) : List Char :=
  if n < 10 then [digitChar n] else natRepr (n / 10) ++ [digitChar (n % 10)]
termination_by n
decreasing_by omega

/-- Decimal printer for integers. -/
def intRepr (i : Int) : List Char :=
  if i < 0 then '-' :: natRepr i.natAbs else natRepr i.toNat

/-- Injective rendering of a JSON number value, as the exact fraction
`num/den`. JavaScript's shortest round-trip float rendering is likewise
injective on the number values, which is all the fingerprint depends on. -/
def jsonNumber (q : Rat) : String :=
  String.mk (intRepr q.num ++ '/' :: natRepr q.den)

def joinComma : List String → String
  | [] => ""
  | [x] => x
  | x :: xs => x ++ "," ++ joinComma xs

def jsonContentPart (p : ContentPart) : String :=
  "\x7b\"type\":" ++ jsonString p.ptype ++
    (match p.text with
      | none => ""
      | some t => ",\"text\":" ++ jsonString t) ++
    (match p.image_url with
      | none => ""
      | some u => ",\"image_url\":\x7b\"url\":" ++ jsonString u ++ "\x7d") ++ "\x7d"

def jsonContent : MessageContent → String
  | .str s => jsonString s
  | .parts ps => "[" ++ joinComma (ps.map jsonContentPart) ++ "]"

def jsonMessage (m : GeminiMessage) : String :=
  "\x7b\"role\":" ++ jsonString m.role ++ ",\"content\":" ++ jsonContent m.content ++ "\x7d"

/-- A JSON field whose value is dropped entirely when `undefined`, as
`JSON.stringify` does. -/
def optNumField (name : String) (v : Option Rat) : String :=
  match v with
  | none => ""
  | some q => ",\"" ++ name ++ "\":" ++ jsonNumber q

/-- Embedding of the `requestString` of `generateCacheKey`:
`JSON.stringify({model, messages, temperature, max_tokens, top_p, top_k})`. -/
def requestString (r : GeminiChatRequest) : String :=
  "\x7b\"model\":" ++ jsonString r.model ++
    ",\"messages\":[" ++ joinComma (r.messages.map jsonMessage) ++ "]" ++
    optNumField "temperature" r.temperature ++
    optNumField "max_tokens" r.max_tokens ++
    optNumField "top_p" r.top_p ++
    optNumField "top_k" r.top_k ++ "\x7d"

/-- UTF-8 encoding of one character (the hash input is the UTF-8 byte
sequence of the serialised request). -/
def utf8Bytes (c : Char) : List Nat :=
  let n := c.toNat
  if n < 128 then [n]
  else if n < 2048 then [192 + n / 64, 128 + n % 64]
  else if n < 65536 then [224 + n / 4096, 128 + n / 64 % 64, 128 + n % 64]
  else [240 + n / 262144, 128 + n / 4096 % 64, 128 + n / 64 % 64, 128 + n % 64]

def strBytes (s : String) : List Nat :=
  (s.data.map utf8Bytes).flatten

/-! ### SHA-256 (crypto.createHash('sha256'), FIPS 180-4) over `Nat` words -/

/-- Truncation to a 32-bit word. -/
def w32 (n : Nat) : Nat := n % 4294967296

def rotr (k x : Nat) : Nat := w32 (x / 2 ^ k + x % 2 ^ k * 2 ^ (32 - k))

def shr (k x : Nat) : Nat := x / 2 ^ k

def bnot32 (x : Nat) : Nat := 4294967295 - x

def chF (e f g : Nat) : Nat := (e &&& f) ^^^ (bnot32 (w32 e) &&& g)

def majF (a b c : Nat) : Nat := (a &&& b) ^^^ (a &&& c) ^^^ (b &&& c)

def bigSigma0 (a : Nat) : Nat := rotr 2 a ^^^ rotr 13 a ^^^ rotr 22 a

def bigSigma1 (e : Nat) : Nat := rotr 6 e ^^^ rotr 11 e ^^^ rotr 25 e

def smallSigma0 (x : Nat) : Nat := rotr 7 x ^^^ rotr 18 x ^^^ shr 3 x

def smallSigma1 (x : Nat) : Nat := rotr 17 x ^^^ rotr 19 x ^^^ shr 10 x

/-- The 64 SHA-256 round constants (FIPS 180-4 §4.2.2, written in
decimal). -/
def K256 : List Nat :=
  [1116352408, 1899447441, 3049323471, 3921009573, 961987163,
   1508970993, 2453635748, 2870763221, 3624381080, 310598401,
   607225278, 1426881987, 1925078388, 2162078206, 2614888103,
   3248222580, 3835390401, 4022224774, 264347078, 604807628,
   770255983, 1249150122, 1555081692, 1996064986, 2554220882,
   2821834349, 2952996808, 3210313671, 3336571891, 3584528711,
   113926993, 338241895, 666307205, 773529912, 1294757372,
   1396182291, 1695183700, 1986661051, 2177026350, 2456956037,
   2730485921, 2820302411, 3259730800, 3345764771, 3516065817,
   3600352804, 4094571909, 275423344, 430227734, 506948616,
   659060556, 883997877, 958139571, 1322822218, 1537002063,
   1747873779, 1955562222, 2024104815, 2227730452, 2361852424,
   2428436474, 2756734187, 3204031479, 3329325298]

/-- The initial hash value (FIPS 180-4 §5.3.3, in decimal). -/
def H256 : List Nat :=
  [1779033703, 3144134277, 1013904242, 2773480762,
   1359893119, 2600822924, 528734635, 1541459225]

/-- Big-endian 8-byte encoding of the message bit length. -/
def lengthBytes (n : Nat) : List Nat :=
  [n / 2 ^ 56 % 256, n / 2 ^ 48 % 256, n / 2 ^ 40 % 256, n / 2 ^ 32 % 256,
   n / 2 ^ 24 % 256, n / 2 ^ 16 % 256, n / 2 ^ 8 % 256, n % 256]

/-- SHA-256 padding: a 0x80 byte, zeros to 56 mod 64, the 64-bit length. -/
def padMessage (msg : List Nat) : List Nat :=
  msg ++ [128] ++ List.replicate ((64 - (msg.length + 9) % 64) % 64) 0 ++
    lengthBytes (8 * msg.length)

/-- Split the padded byte stream into 64-byte blocks. -/
def chunk64Aux : Nat → List Nat → List (List Nat)
  | 0, _ => []
  | _ + 1, [] => []
  | fuel + 1, a :: t => (a :: t).take 64 :: chunk64Aux fuel ((a :: t).drop 64)

def chunk64 (l : List Nat) : List (List Nat) := chunk64Aux l.length l

/-- Big-endian packing of bytes into 32-bit words. -/
def bytesToWords : List Nat → List Nat
  | b0 :: b1 :: b2 :: b3 :: rest =>
    (b0 * 16777216 + b1 * 65536 + b2 * 256 + b3) :: bytesToWords rest
  | _ => []

/-- Message-schedule extension: append `n` further words. -/
def buildSchedule (w : List Nat) : Nat → List Nat
  | 0 => w
  | n + 1 =>
    buildSchedule (w ++ [w32 (smallSigma1 (w.getD (w.length - 2) 0) +
      w.getD (w.length - 7) 0 + smallSigma0 (w.getD (w.length - 15) 0) +
      w.getD (w.length - 16) 0)]) n

/-- One round of the SHA-256 compression function on the `[a..h]` state. -/
def compressRound (st : List Nat) (kt wt : Nat) : List Nat :=
  match st with
  | [a, b, c, d, e, f, g, h] =>
    let t1 := w32 (h + bigSigma1 e + chF e f g + kt + wt)
    let t2 := w32 (bigSigma0 a + majF a b c)
    [w32 (t1 + t2), a, b, c, w32 (d + t1), e, f, g]
  | other => other

/-- Compression of one 64-byte block into the running hash. -/
def compressBlock (hs : List Nat) (block : List Nat) : List Nat :=
  let w := buildSchedule (bytesToWords block) 48
  let st := (List.range 64).foldl
    (fun st i => compressRound st (K256.getD i 0) (w.getD i 0)) hs
  (hs.zip st).map (fun p => w32 (p.1 + p.2))

/-- The eight 32-bit hash words of a byte message. -/
def sha256Words (msg : List Nat) : List Nat :=
  (chunk64 (padMessage msg)).foldl compressBlock H256

/-- The SHA-256 digest as a natural number: the big-endian concatenation of
the eight hash words. -/
def sha256Nat (msg : List Nat) : Nat :=
  ((sha256Words msg).take 8).foldl (fun acc h => acc * 4294967296 + w32 h) 0

/-- Lower-case hex rendering of the 256-bit digest (64 hex digits). -/
def digestHex (n : Nat) : String :=
  String.mk ((List.range 64).map (fun i => hexDigitChar (n / 16 ^ (63 - i) % 16)))

/-- Embedding of `ConcurrentCacheManager.generateCacheKey`. -/
def generateCacheKey (r : GeminiChatRequest) : String :=
  digestHex (sha256Nat (strBytes (requestString r)))

set_option maxRecDepth 20000 in
/-- FIPS 180-4 test vector: the digest of the empty message. -/
theorem sha256_fips_vector_empty :
    digestHex (sha256Nat []) =
      "e3b0c44298fc1c149afbf4c8996fb92427ae41e4649b934ca495991b7852b855" := by
  decide

set_option maxRecDepth 20000 in
/-- FIPS 180-4 test vector: the digest of "abc". -/
theorem sha256_fips_vector_abc :
    digestHex (sha256Nat (strBytes "abc")) =
      "ba7816bf8f01cfea414140de5dae2223b00361a396177a9cb410ff61f20015ad" := by
  decide

set_option maxRecDepth 20000 in
/-- FIPS 180-4 test vector: the two-block digest of
"abcdbcdecdefdefgefghfghighijhijkijkljklmklmnlmnomnopnopq". -/
theorem sha256_fips_vector_two_blocks :
    digestHex (sha256Nat (strBytes
        "abcdbcdecdefdefgefghfghighijhijkijkljklmklmnlmnomnopnopq")) =
      "248d6a61d20638b8e5c026930c3e6039a33ce45964ff2167f6ecedd419db06c1" := by
  decide

/-! ### Request handling with cache and concurrent dispatch

Upstream outcomes are passed as a list of `Except String GeminiChatResponse`
(one entry per issued `geminiClient.chatCompletion` call, in completion
order; an error carries the thrown message). `Promise.any` resolves with the
first fulfilled promise and, when all reject, rejects with an
`AggregateError` holding all rejection reasons. -/

/-- An error as observed by the route: either a plain `Error` with its
message or `Promise.any`'s `AggregateError` over the rejection messages. -/
inductive JsError where
  | err (message : String)
  | aggregateErr (messages : List String)
deriving DecidableEq, Repr

def firstFulfilled : List (Except String GeminiChatResponse) → Option GeminiChatResponse
  | [] => none
  | .ok a :: _ => some a
  | .error _ :: rest => firstFulfilled rest

def errorsOf : List (Except String GeminiChatResponse) → List String
  | [] => []
  | .ok _ :: rest => errorsOf rest
  | .error e :: rest => e :: errorsOf rest

/-- Semantics of `Promise.any` over the listed outcomes. -/
def promiseAny (outcomes : List (Except String GeminiChatResponse)) :
    Except JsError GeminiChatResponse :=
  match firstFulfilled outcomes with
  | some a => .ok a
  | none => .error (.aggregateErr (errorsOf outcomes))

/-- The configuration fields of `ConcurrentCacheManager`. -/
structure CacheConfig where
  enableCache : Bool
  enableConcurrent : Bool
  concurrentRequests : Nat
deriving DecidableEq, Repr

/-- The NodeCache store, as an association list where a fresh `set` shadows
older entries. -/
def CacheState := List (String × GeminiChatResponse)

def cacheLookup (st : CacheState) (key : String) : Option GeminiChatResponse :=
  match st with
  | [] => none
  | (k, v) :: rest => if k = key then some v else cacheLookup rest key

/-- Embedding of `getCachedResponse`. -/
def getCachedResponse (cfg : CacheConfig) (st : CacheState) (cacheKey : String) :
    Option GeminiChatResponse :=
  if cfg.enableCache then cacheLookup st cacheKey else none

/-- Embedding of `setCachedResponse`. -/
def setCachedResponse (cfg : CacheConfig) (st : CacheState) (cacheKey : String)
    (resp : GeminiChatResponse) : CacheState :=
  if cfg.enableCache then (cacheKey, resp) :: st else st

/-- Embedding of `handleAdditionalResponses`: cache each additional
fulfilled response whose id differs from the primary one under a
`_variant_<i>` suffix of the base key. -/
def cacheVariants (cfg : CacheConfig) (first : GeminiChatResponse) (baseKey : String) :
    List (Except String GeminiChatResponse) → Nat → CacheState → CacheState
  | [], _, st => st
  | .ok r :: rest, n, st =>
    if r.id ≠ first.id then
      cacheVariants cfg first baseKey rest (n + 1)
        (setCachedResponse cfg st (baseKey ++ "_variant_" ++ toString (n + 1)) r)
    else
      cacheVariants cfg first baseKey rest n st
  | .error _ :: rest, n, st => cacheVariants cfg first baseKey rest n st

/-- Embedding of `ConcurrentCacheManager.handleConcurrentRequests`. -/
def handleConcurrentRequests (cfg : CacheConfig) (st : CacheState) (cacheKey : String)
    (outcomes : List (Except String GeminiChatResponse)) :
    Except JsError GeminiChatResponse × CacheState :=
  match promiseAny outcomes with
  | .ok resp =>
    (.ok resp, cacheVariants cfg resp cacheKey outcomes 0
      (setCachedResponse cfg st cacheKey resp))
  | .error e => (.error e, st)

/-- Embedding of `ConcurrentCacheManager.handleRequest`. The third result
component counts the upstream `chatCompletion` calls the code issues. -/
def handleRequest (cfg : CacheConfig) (st : CacheState) (r : GeminiChatRequest)
    (outcomes : List (Except String GeminiChatResponse)) :
    Except JsError GeminiChatResponse × CacheState × Nat :=
  let cacheKey := generateCacheKey r
  match getCachedResponse cfg st cacheKey with
  | some cached => (.ok cached, st, 0)
  | none =>
    if ¬ cfg.enableConcurrent ∨ cfg.concurrentRequests ≤ 1 then
      match outcomes.headD (.error "no outcome") with
      | .ok resp => (.ok resp, setCachedResponse cfg st cacheKey resp, 1)
      | .error e => (.error (.err e), st, 1)
    else
      let res := handleConcurrentRequests cfg st cacheKey
        (outcomes.take cfg.concurrentRequests)
      (res.1, res.2, cfg.concurrentRequests)

/-! ### Claim C3: first success wins, all-fail behaviour -/

def c3cfg : CacheConfig :=
  { enableCache := false, enableConcurrent := true, concurrentRequests := 2 }

/-- C3 counterexample: with fan-out 2 and both simulated calls failing
("e1" then "e2"), the call fails with `Promise.any`'s aggregate error over
both failures, which is not the last failure. -/
theorem C3_counterexample :
    (handleConcurrentRequests c3cfg [] "k" [.error "e1", .error "e2"]).1
        = .error (.aggregateErr ["e1", "e2"]) ∧
    JsError.aggregateErr ["e1", "e2"] ≠ JsError.err "e2" :=
  ⟨rfl, by decide⟩

theorem firstFulfilled_of_mem_ok :
    ∀ (outcomes : List (Except String GeminiChatResponse)),
      (∃ o ∈ outcomes, ∃ r, o = .ok r) → ∃ r, firstFulfilled outcomes = some r := by
  intro outcomes
  induction outcomes with
  | nil => rintro ⟨o, ho, _⟩; exact absurd ho (List.not_mem_nil o)
  | cons x rest ih =>
    rintro ⟨o, ho, r, hor⟩
    cases x with
    | ok a => exact ⟨a, rfl⟩
    | error e =>
      rcases List.mem_cons.mp ho with h | h
      · rw [h] at hor; exact absurd hor (by simp)
      · exact ih ⟨o, h, r, hor⟩

theorem firstFulfilled_of_all_error :
    ∀ (outcomes : List (Except String GeminiChatResponse)),
      (∀ o ∈ outcomes, ∃ e, o = .error e) → firstFulfilled outcomes = none := by
  intro outcomes
  induction outcomes with
  | nil => intro _; rfl
  | cons x rest ih =>
    intro h
    cases x with
    | ok a =>
      obtain ⟨e, he⟩ := h (.ok a) (List.mem_cons_self _ _)
      exact absurd he (by simp)
    | error e =>
      show firstFulfilled rest = none
      exact ih (fun o ho => h o (List.mem_cons_of_mem _ ho))

/-- C3 amended: the concurrent dispatcher returns the first fulfilled
outcome (so it succeeds whenever at least one of the parallel calls does);
when all calls fail it fails with the aggregate error over all the failure
messages in order (`Promise.any`'s `AggregateError`), not with the last
failure alone. On a cache miss with concurrent dispatch enabled and fan-out
greater than 1, `handleRequest` issues exactly `concurrentRequests` upstream
calls and defers to the dispatcher. -/
theorem C3_concurrent_dispatch :
    (∀ (cfg : CacheConfig) (st : CacheState) (cacheKey : String)
        (outcomes : List (Except String GeminiChatResponse)),
      (∀ resp, firstFulfilled outcomes = some resp →
        (handleConcurrentRequests cfg st cacheKey outcomes).1 = .ok resp) ∧
      ((∃ o ∈ outcomes, ∃ r, o = .ok r) →
        ∃ resp, (handleConcurrentRequests cfg st cacheKey outcomes).1 = .ok resp) ∧
      ((∀ o ∈ outcomes, ∃ e, o = .error e) →
        (handleConcurrentRequests cfg st cacheKey outcomes).1
          = .error (.aggregateErr (errorsOf outcomes)))) ∧
    (∀ (cfg : CacheConfig) (st : CacheState) (r : GeminiChatRequest)
        (outcomes : List (Except String GeminiChatResponse)),
      cfg.enableConcurrent = true → 1 < cfg.concurrentRequests →
      getCachedResponse cfg st (generateCacheKey r) = none →
      handleRequest cfg st r outcomes =
        ((handleConcurrentRequests cfg st (generateCacheKey r)
            (outcomes.take cfg.concurrentRequests)).1,
          (handleConcurrentRequests cfg st (generateCacheKey r)
            (outcomes.take cfg.concurrentRequests)).2,
          cfg.concurrentRequests)) := by
  constructor
  · intro cfg st cacheKey outcomes
    refine ⟨?_, ?_, ?_⟩
    · intro resp hfirst
      unfold handleConcurrentRequests promiseAny
      rw [hfirst]
    · intro hex
      obtain ⟨resp, hfirst⟩ := firstFulfilled_of_mem_ok outcomes hex
      refine ⟨resp, ?_⟩
      unfold handleConcurrentRequests promiseAny
      rw [hfirst]
    · intro hall
      unfold handleConcurrentRequests promiseAny
      rw [firstFulfilled_of_all_error outcomes hall]
  · intro cfg st r outcomes hcc hn hmiss
    unfold handleRequest
    simp only [hmiss]
    rw [if_neg (by simp [hcc]; omega)]

/-- Witness for `C3_concurrent_dispatch`: with fan-out 2, a failure followed
by a success still yields the success; two failures yield the aggregate of
both. -/
theorem C3_concurrent_dispatch_witness :
    firstFulfilled [.error "e1", .ok elevenWordResp] = some elevenWordResp ∧
    (handleConcurrentRequests c3cfg [] "k" [.error "e1", .ok elevenWordResp]).1
      = .ok elevenWordResp ∧
    (handleConcurrentRequests c3cfg [] "k" [.error "e1", .error "e2"]).1
      = .error (.aggregateErr ["e1", "e2"]) := by
  refine ⟨rfl, ?_, ?_⟩
  · exact (C3_concurrent_dispatch.1 c3cfg [] "k" [.error "e1", .ok elevenWordResp]).1
      elevenWordResp rfl
  · refine (C3_concurrent_dispatch.1 c3cfg [] "k" [.error "e1", .error "e2"]).2.2 ?_
    intro o ho
    rcases List.mem_cons.mp ho with h | h
    · exact ⟨"e1", h⟩
    · rcases List.mem_cons.mp h with h2 | h2
      · exact ⟨"e2", h2⟩
      · exact absurd h2 (List.not_mem_nil o)

/-! ### Claim C6: fingerprint determinism and cache hits -/

theorem foldl_digest_lt : ∀ (l : List Nat) (acc k : Nat), acc < 2 ^ (32 * k) →
    l.foldl (fun acc h => acc * 4294967296 + w32 h) acc < 2 ^ (32 * (k + l.length)) := by
  intro l
  induction l with
  | nil => intro acc k h; simpa using h
  | cons x xs ih =>
    intro acc k h
    have hacc' : acc * 4294967296 + w32 x < 2 ^ (32 * (k + 1)) := by
      have hw : w32 x < 4294967296 := Nat.mod_lt _ (by norm_num)
      have h1 : acc * 4294967296 + w32 x < (acc + 1) * 4294967296 := by
        rw [Nat.succ_mul]
        omega
      have h2 : (acc + 1) * 4294967296 ≤ 2 ^ (32 * k) * 4294967296 :=
        Nat.mul_le_mul_right _ h
      have h3 : 2 ^ (32 * (k + 1)) = 2 ^ (32 * k) * 4294967296 := by
        rw [show 32 * (k + 1) = 32 * k + 32 from by omega, Nat.pow_add]
      omega
    have hres := ih (acc * 4294967296 + w32 x) (k + 1) hacc'
    have harith : 32 * (k + 1 + xs.length) = 32 * (k + (xs.length + 1)) := by
      omega
    rw [harith] at hres
    simpa using hres

theorem sha256Nat_lt (msg : List Nat) : sha256Nat msg < 2 ^ 256 := by
  unfold sha256Nat
  have hlen : ((sha256Words msg).take 8).length ≤ 8 := by
    simp [List.length_take]
  have hb := foldl_digest_lt ((sha256Words msg).take 8) 0 0 (by norm_num)
  have hle : 2 ^ (32 * (0 + ((sha256Words msg).take 8).length)) ≤ 2 ^ 256 :=
    Nat.pow_le_pow_right (by norm_num) (by omega)
  omega

/-- A concrete request family used by the witnesses: one user message of `n`
letters, all other fingerprinted fields fixed, so two members with distinct
`n` differ exactly in the `messages` field. -/
def pigeonReq (n : Nat) : GeminiChatRequest :=
  { model := "gemini-2.5-flash"
    messages := [{ role := "user", content := .str (String.mk (List.replicate n 'a')) }]
    stream := none
    temperature := none
    max_tokens := none
    top_p := none
    top_k := none }

/-- The two requests differ in exactly one of the six fingerprinted fields. -/
def differOneField (r1 r2 : GeminiChatRequest) : Prop :=
  (r1.model ≠ r2.model ∧ r1.messages = r2.messages ∧ r1.temperature = r2.temperature ∧
    r1.max_tokens = r2.max_tokens ∧ r1.top_p = r2.top_p ∧ r1.top_k = r2.top_k) ∨
  (r1.model = r2.model ∧ r1.messages ≠ r2.messages ∧ r1.temperature = r2.temperature ∧
    r1.max_tokens = r2.max_tokens ∧ r1.top_p = r2.top_p ∧ r1.top_k = r2.top_k) ∨
  (r1.model = r2.model ∧ r1.messages = r2.messages ∧ r1.temperature ≠ r2.temperature ∧
    r1.max_tokens = r2.max_tokens ∧ r1.top_p = r2.top_p ∧ r1.top_k = r2.top_k) ∨
  (r1.model = r2.model ∧ r1.messages = r2.messages ∧ r1.temperature = r2.temperature ∧
    r1.max_tokens ≠ r2.max_tokens ∧ r1.top_p = r2.top_p ∧ r1.top_k = r2.top_k) ∨
  (r1.model = r2.model ∧ r1.messages = r2.messages ∧ r1.temperature = r2.temperature ∧
    r1.max_tokens = r2.max_tokens ∧ r1.top_p ≠ r2.top_p ∧ r1.top_k = r2.top_k) ∨
  (r1.model = r2.model ∧ r1.messages = r2.messages ∧ r1.temperature = r2.temperature ∧
    r1.max_tokens = r2.max_tokens ∧ r1.top_p = r2.top_p ∧ r1.top_k ≠ r2.top_k)

/-! ### A verified reader for the fingerprint serialisation

To show the fingerprint input is sensitive to each of the six fingerprinted
fields, the serialisation is inverted: a reader is defined for every printer
and proved to return the printed value exactly, so equal serialisations force
equal fields. -/

/-- Numeric value of a lower-case hex digit character as produced by
`hexDigitChar`. -/
def unhexDigit (c : Char) : Nat :=
  if 97 ≤ c.toNat then c.toNat - 87 else c.toNat - 48

/-- Decodes the character following a backslash for the two-character escapes
emitted by `jsonEscapeChar`. -/
def unescSimple (e : Char) : Char :=
  if e = 'n' then '\n' else if e = 'r' then '\r' else if e = 't' then '\t' else e

/-- Parser for the body of a serialised JSON string: consumes the escaped body
up to the closing quote and returns the decoded characters together with the
remaining input. -/
def parseStrBody : List Char → Option (List Char × List Char)
  | [] => none
  | '"' :: rest => some ([], rest)
  | '\\' :: 'u' :: _ :: _ :: h1 :: h2 :: rest3 =>
    (parseStrBody rest3).map (fun p =>
      (Char.ofNat (16 * unhexDigit h1 + unhexDigit h2) :: p.1, p.2))
  | '\\' :: e :: rest2 => (parseStrBody rest2).map (fun p => (unescSimple e :: p.1, p.2))
  | '\\' :: [] => none
  | c :: rest => (parseStrBody rest).map (fun p => (c :: p.1, p.2))

/-- Unfolding of `parseStrBody` on an unescaped plain character. -/
theorem parseStrBody_plain (c : Char) (rest : List Char) (h1 : ¬ c = '"') (h2 : ¬ c = '\\') :
    parseStrBody (c :: rest) = (parseStrBody rest).map (fun p => (c :: p.1, p.2)) :=
  parseStrBody.eq_6 c rest (fun h => h1 h) (fun _ _ _ _ _ hc _ => h2 hc)
    (fun _ _ hc _ => h2 hc) (fun hc _ => h2 hc)

/-- The hex printer and reader are mutually inverse on digit values. -/
theorem unhexDigit_hexDigitChar : ∀ k < 16, unhexDigit (hexDigitChar k) = k := by decide

/-- Round trip: parsing the escaped form of `l` followed by the closing quote
recovers `l` and the remaining input exactly. -/
theorem parseStrBody_round (l : List Char) : ∀ rest,
    parseStrBody ((l.map jsonEscapeChar).flatten ++ '"' :: rest) = some (l, rest) := by
  induction l with
  | nil => intro rest; rfl
  | cons c t ih =>
    intro rest
    have hstep : ((c :: t).map jsonEscapeChar).flatten ++ '"' :: rest
        = jsonEscapeChar c ++ ((t.map jsonEscapeChar).flatten ++ '"' :: rest) := by
      simp [List.append_assoc]
    rw [hstep]
    by_cases h1 : c = '"'
    · subst h1
      show (parseStrBody ((t.map jsonEscapeChar).flatten ++ '"' :: rest)).map
          (fun p => (unescSimple '"' :: p.1, p.2)) = some ('"' :: t, rest)
      rw [ih rest]
      rfl
    · by_cases h2 : c = '\\'
      · subst h2
        show (parseStrBody ((t.map jsonEscapeChar).flatten ++ '"' :: rest)).map
            (fun p => (unescSimple '\\' :: p.1, p.2)) = some ('\\' :: t, rest)
        rw [ih rest]
        rfl
      · by_cases h3 : c = '\n'
        · subst h3
          show (parseStrBody ((t.map jsonEscapeChar).flatten ++ '"' :: rest)).map
              (fun p => (unescSimple 'n' :: p.1, p.2)) = some ('\n' :: t, rest)
          rw [ih rest]
          rfl
        · by_cases h4 : c = '\r'
          · subst h4
            show (parseStrBody ((t.map jsonEscapeChar).flatten ++ '"' :: rest)).map
                (fun p => (unescSimple 'r' :: p.1, p.2)) = some ('\r' :: t, rest)
            rw [ih rest]
            rfl
          · by_cases h5 : c = '\t'
            · subst h5
              show (parseStrBody ((t.map jsonEscapeChar).flatten ++ '"' :: rest)).map
                  (fun p => (unescSimple 't' :: p.1, p.2)) = some ('\t' :: t, rest)
              rw [ih rest]
              rfl
            · by_cases h6 : c.toNat < 32
              · rw [show jsonEscapeChar c
                    = ['\\', 'u', '0', '0', hexDigitChar (c.toNat / 16),
                        hexDigitChar (c.toNat % 16)] from by
                  simp [jsonEscapeChar, h1, h2, h3, h4, h5, h6]]
                show (parseStrBody ((t.map jsonEscapeChar).flatten ++ '"' :: rest)).map
                    (fun p => (Char.ofNat (16 * unhexDigit (hexDigitChar (c.toNat / 16))
                        + unhexDigit (hexDigitChar (c.toNat % 16))) :: p.1, p.2))
                    = some (c :: t, rest)
                rw [ih rest]
                have hd1 : unhexDigit (hexDigitChar (c.toNat / 16)) = c.toNat / 16 :=
                  unhexDigit_hexDigitChar _ (by omega)
                have hd2 : unhexDigit (hexDigitChar (c.toNat % 16)) = c.toNat % 16 :=
                  unhexDigit_hexDigitChar _ (by omega)
                rw [hd1, hd2]
                have hn : 16 * (c.toNat / 16) + c.toNat % 16 = c.toNat := by omega
                rw [hn, Char.ofNat_toNat]
                rfl
              · rw [show jsonEscapeChar c = [c] from by
                  simp [jsonEscapeChar, h1, h2, h3, h4, h5, h6]]
                show parseStrBody (c :: ((t.map jsonEscapeChar).flatten ++ '"' :: rest))
                    = some (c :: t, rest)
                rw [parseStrBody_plain c _ h1 h2, ih rest]
                rfl

/-- Parser for a serialised JSON string, quotes included. -/
def parseJString (l : List Char) : Option (String × List Char) :=
  if l.headD ' ' = '"' then (parseStrBody l.tail).map (fun p => (String.mk p.1, p.2))
  else none

/-- Round trip of `parseJString` against `jsonString`. -/
theorem parseJString_round (s : String) (rest : List Char) :
    parseJString ((jsonString s).data ++ rest) = some (s, rest) := by
  have hdata : (jsonString s).data
      = '"' :: ((s.data.map jsonEscapeChar).flatten ++ ['"']) := by
    simp [jsonString, String.data_append]
  rw [hdata]
  show parseJString ('"' :: (((s.data.map jsonEscapeChar).flatten ++ ['"']) ++ rest)) = _
  rw [show ((s.data.map jsonEscapeChar).flatten ++ ['"']) ++ rest
      = (s.data.map jsonEscapeChar).flatten ++ '"' :: rest from by simp]
  show (parseStrBody ((s.data.map jsonEscapeChar).flatten ++ '"' :: rest)).map
      (fun p => (String.mk p.1, p.2)) = some (s, rest)
  rw [parseStrBody_round s.data rest]
  rfl

/-- Decimal digit test. -/
def isDigitCh (c : Char) : Bool :=
  decide (48 ≤ c.toNat) && decide (c.toNat ≤ 57)

/-- Reads a maximal run of decimal digits, accumulating their value. -/
def parseNatAux : List Char → Nat → Nat × List Char
  | [], acc => (acc, [])
  | c :: rest, acc =>
    if isDigitCh c then parseNatAux rest (acc * 10 + (c.toNat - 48)) else (acc, c :: rest)

theorem digitChar_toNat : ∀ k < 10, (digitChar k).toNat = 48 + k := by decide

theorem isDigitCh_digitChar : ∀ k < 10, isDigitCh (digitChar k) = true := by decide

/-- The decimal printer never yields an empty digit string. -/
theorem natRepr_ne_nil : ∀ (n : Nat), natRepr n ≠ []
  | n => by
    rw [natRepr]
    split
    · simp
    · simp

/-- The decimal printer starts with a digit. -/
theorem natRepr_head_digit : ∀ (n : Nat), isDigitCh ((natRepr n).headD ' ') = true
  | n => by
    rw [natRepr]
    split
    · rename_i h
      exact isDigitCh_digitChar n h
    · rename_i h
      obtain ⟨c, t, hct⟩ := List.exists_cons_of_ne_nil (natRepr_ne_nil (n / 10))
      rw [hct]
      have := natRepr_head_digit (n / 10)
      rw [hct] at this
      simpa using this
termination_by n => n
decreasing_by omega

theorem parseNatAux_cons_nondigit (c : Char) (t : List Char) (acc : Nat)
    (h : isDigitCh c = false) : parseNatAux (c :: t) acc = (acc, c :: t) := by
  simp [parseNatAux, h]

/-- Reading the printed digits of `n` folds them back into the accumulator. -/
theorem parseNatAux_repr : ∀ (n : Nat), ∀ (rest : List Char) (acc : Nat),
    parseNatAux (natRepr n ++ rest) acc
      = parseNatAux rest (acc * 10 ^ (natRepr n).length + n)
  | n => by
    intro rest acc
    rw [natRepr]
    split
    · rename_i h
      show parseNatAux (digitChar n :: rest) acc = _
      rw [show parseNatAux (digitChar n :: rest) acc
          = if isDigitCh (digitChar n) then
              parseNatAux rest (acc * 10 + ((digitChar n).toNat - 48))
            else (acc, digitChar n :: rest) from rfl]
      rw [isDigitCh_digitChar n h, if_pos rfl, digitChar_toNat n h]
      have h48 : 48 + n - 48 = n := by omega
      rw [h48]
      simp
    · rename_i h
      rw [show (natRepr (n / 10) ++ [digitChar (n % 10)]) ++ rest
          = natRepr (n / 10) ++ (digitChar (n % 10) :: rest) from by simp]
      rw [parseNatAux_repr (n / 10) (digitChar (n % 10) :: rest) acc]
      rw [show parseNatAux (digitChar (n % 10) :: rest)
            (acc * 10 ^ (natRepr (n / 10)).length + n / 10)
          = if isDigitCh (digitChar (n % 10)) then
              parseNatAux rest ((acc * 10 ^ (natRepr (n / 10)).length + n / 10) * 10
                + ((digitChar (n % 10)).toNat - 48))
            else (acc * 10 ^ (natRepr (n / 10)).length + n / 10,
              digitChar (n % 10) :: rest) from rfl]
      rw [isDigitCh_digitChar (n % 10) (by omega), if_pos rfl,
        digitChar_toNat (n % 10) (by omega)]
      congr 1
      have hlen : (natRepr (n / 10) ++ [digitChar (n % 10)]).length
          = (natRepr (n / 10)).length + 1 := by simp
      rw [hlen, pow_succ]
      have h48 : 48 + n % 10 - 48 = n % 10 := by omega
      rw [h48]
      set A := 10 ^ (natRepr (n / 10)).length
      have hn : n / 10 * 10 + n % 10 = n := by omega
      calc (acc * A + n / 10) * 10 + n % 10
          = acc * (A * 10) + (n / 10 * 10 + n % 10) := by ring_nf
        _ = acc * (A * 10) + n := by rw [hn]
termination_by n => n
decreasing_by omega

/-- Strips an expected literal from the front of the input. -/
def stripLit : List Char → List Char → Option (List Char)
  | [], l => some l
  | _ :: _, [] => none
  | c :: p, x :: l => if x = c then stripLit p l else none

theorem stripLit_append (p : List Char) : ∀ rest, stripLit p (p ++ rest) = some rest := by
  induction p with
  | nil => intro rest; rfl
  | cons c t ih =>
    intro rest
    show (if c = c then stripLit t (t ++ rest) else none) = some rest
    rw [if_pos rfl]
    exact ih rest

/-- Reads an optional minus sign followed by decimal digits. -/
def parseInt (l : List Char) : Int × List Char :=
  if l.headD ' ' = '-' then
    (-((parseNatAux l.tail 0).1 : Int), (parseNatAux l.tail 0).2)
  else (((parseNatAux l 0).1 : Int), (parseNatAux l 0).2)

/-- Reading the printed digits of `n` on a non-digit boundary returns `n`. -/
theorem parseNatAux_repr_stop (n : Nat) (rest : List Char)
    (hr : isDigitCh (rest.headD ' ') = false) :
    parseNatAux (natRepr n ++ rest) 0 = (n, rest) := by
  rw [parseNatAux_repr n rest 0]
  cases rest with
  | nil => simp [parseNatAux]
  | cons c t =>
    simp only [List.headD_cons] at hr
    rw [parseNatAux_cons_nondigit c t _ hr]
    simp

/-- Round trip of `parseInt` against `intRepr`. -/
theorem parseInt_repr (i : Int) (rest : List Char)
    (hr : isDigitCh (rest.headD ' ') = false) :
    parseInt (intRepr i ++ rest) = (i, rest) := by
  unfold intRepr
  by_cases h : i < 0
  · rw [if_pos h]
    show parseInt ('-' :: (natRepr i.natAbs ++ rest)) = (i, rest)
    unfold parseInt
    rw [if_pos (by simp)]
    simp only [List.tail_cons]
    rw [parseNatAux_repr_stop i.natAbs rest hr]
    have : -((i.natAbs : Nat) : Int) = i := by omega
    rw [this]
  · rw [if_neg h]
    obtain ⟨c, t, hct⟩ := List.exists_cons_of_ne_nil (natRepr_ne_nil i.toNat)
    have hcd : isDigitCh c = true := by
      have := natRepr_head_digit i.toNat
      rw [hct] at this
      simpa using this
    have hcne : ¬ c = '-' := by
      intro hc
      subst hc
      exact absurd hcd (by decide)
    unfold parseInt
    rw [hct]
    show (if (c :: (t ++ rest)).headD ' ' = '-' then _ else _) = (i, rest)
    rw [if_neg (by simpa using hcne)]
    have hrw : (c :: t) ++ rest = natRepr i.toNat ++ rest := by rw [hct]
    rw [hrw, parseNatAux_repr_stop i.toNat rest hr]
    have : ((i.toNat : Nat) : Int) = i := by omega
    rw [this]

/-- Reads the `num/den` rendering produced by `jsonNumber`, returning the
numerator and denominator. -/
def parseFrac (l : List Char) : Option ((Int × Nat) × List Char) :=
  if (parseInt l).2.headD ' ' = '/' then
    some (((parseInt l).1, (parseNatAux (parseInt l).2.tail 0).1),
      (parseNatAux (parseInt l).2.tail 0).2)
  else none

/-- Round trip of `parseFrac` against `jsonNumber`. -/
theorem parseFrac_round (q : Rat) (rest : List Char)
    (hr : isDigitCh (rest.headD ' ') = false) :
    parseFrac ((jsonNumber q).data ++ rest) = some ((q.num, q.den), rest) := by
  have hdata : (jsonNumber q).data ++ rest
      = intRepr q.num ++ ('/' :: (natRepr q.den ++ rest)) := by
    show (intRepr q.num ++ '/' :: natRepr q.den) ++ rest = _
    simp
  rw [hdata]
  have hint := parseInt_repr q.num ('/' :: (natRepr q.den ++ rest))
    (by rw [List.headD_cons]; decide)
  unfold parseFrac
  rw [hint]
  simp only [List.headD_cons, List.tail_cons, if_true]
  rw [parseNatAux_repr_stop q.den rest hr]

/-- The numerator/denominator view of an optional numeric field; two rationals
agree exactly when these views agree. -/
def numKey : Option Rat → Option (Int × Nat)
  | none => none
  | some q => some (q.num, q.den)

/-- Reads an optional numeric field: either the expected field literal followed
by a number, or nothing. -/
def parseOptNum (lit : List Char) (l : List Char) :
    Option (Option (Int × Nat) × List Char) :=
  match stripLit lit l with
  | none => some (none, l)
  | some l1 =>
    match parseFrac l1 with
    | none => none
    | some (nd, l2) => some (some nd, l2)

/-- Round trip of `parseOptNum` against `optNumField`, given that the field
literal does not start the following output when the field is absent. -/
theorem parseOptNum_round (name : String) (v : Option Rat) (S : List Char)
    (hnone : v = none → stripLit (",\"" ++ name ++ "\":").data S = none)
    (hd : isDigitCh (S.headD ' ') = false) :
    parseOptNum (",\"" ++ name ++ "\":").data ((optNumField name v).data ++ S)
      = some (numKey v, S) := by
  cases v with
  | none =>
    show parseOptNum _ (("" : String).data ++ S) = some (none, S)
    rw [show ("" : String).data ++ S = S from by simp]
    unfold parseOptNum
    rw [hnone rfl]
  | some q =>
    have hdata : (optNumField name (some q)).data ++ S
        = (",\"" ++ name ++ "\":").data ++ ((jsonNumber q).data ++ S) := by
      show ((",\"" ++ name ++ "\":") ++ jsonNumber q).data ++ S = _
      simp [String.data_append]
    rw [hdata]
    unfold parseOptNum
    rw [stripLit_append]
    simp only [parseFrac_round q S hd, numKey]

/-- Reads an optional string field introduced by the given literal. -/
def parseOptStr (lit : List Char) (l : List Char) : Option (Option String × List Char) :=
  match stripLit lit l with
  | none => some (none, l)
  | some l1 =>
    match parseJString l1 with
    | none => none
    | some (s, l2) => some (some s, l2)

/-- Reads the optional `image_url` object of a content part. -/
def parseOptImage (l : List Char) : Option (Option String × List Char) :=
  match stripLit ",\"image_url\":\x7b\"url\":".data l with
  | none => some (none, l)
  | some l1 =>
    match parseJString l1 with
    | none => none
    | some (u, l2) =>
      match stripLit "\x7d".data l2 with
      | none => none
      | some l3 => some (some u, l3)

/-- Parser for one serialised content part. -/
def parsePart (l : List Char) : Option (ContentPart × List Char) :=
  match stripLit "\x7b\"type\":".data l with
  | none => none
  | some l1 =>
    match parseJString l1 with
    | none => none
    | some (ty, l2) =>
      match parseOptStr ",\"text\":".data l2 with
      | none => none
      | some (txt, l3) =>
        match parseOptImage l3 with
        | none => none
        | some (img, l4) =>
          match stripLit "\x7d".data l4 with
          | none => none
          | some l5 => some ({ ptype := ty, text := txt, image_url := img }, l5)

/-- Round trip of `parseOptImage` on a present `image_url` field. -/
theorem parseOptImage_round_some (u : String) (S : List Char) :
    parseOptImage ((",\"image_url\":\x7b\"url\":" ++ jsonString u ++ "\x7d").data ++ S)
      = some (some u, S) := by
  have hdata : (",\"image_url\":\x7b\"url\":" ++ jsonString u ++ "\x7d").data ++ S
      = ",\"image_url\":\x7b\"url\":".data
          ++ ((jsonString u).data ++ ("\x7d".data ++ S)) := by
    simp [String.data_append]
  rw [hdata]
  unfold parseOptImage
  rw [stripLit_append]
  simp only [parseJString_round u ("\x7d".data ++ S)]
  rw [show ("\x7d" : String).data ++ S = '\x7d' :: S from rfl]
  rw [show stripLit "\x7d".data ('\x7d' :: S) = some S from rfl]

/-- An absent `image_url` field: the closing brace is not consumed. -/
theorem parseOptImage_round_none (S : List Char) :
    parseOptImage ('\x7d' :: S) = some (none, '\x7d' :: S) := rfl

/-- Round trip of `parsePart` against `jsonContentPart`. -/
theorem parsePart_round (p : ContentPart) (S : List Char) :
    parsePart ((jsonContentPart p).data ++ S) = some (p, S) := by
  obtain ⟨ty, txt, img⟩ := p
  cases txt with
  | none =>
    cases img with
    | none =>
      have hdata : (jsonContentPart ⟨ty, none, none⟩).data ++ S
          = "\x7b\"type\":".data ++ ((jsonString ty).data ++ ('\x7d' :: S)) := by
        simp [jsonContentPart, String.data_append]
      rw [hdata]
      unfold parsePart
      rw [stripLit_append]
      simp only [parseJString_round]
      simp only [show parseOptStr ",\"text\":".data ('\x7d' :: S)
          = some (none, '\x7d' :: S) from rfl,
        parseOptImage_round_none,
        show stripLit "\x7d".data ('\x7d' :: S) = some S from rfl]
    | some u =>
      have hdata : (jsonContentPart ⟨ty, none, some u⟩).data ++ S
          = "\x7b\"type\":".data ++ ((jsonString ty).data
              ++ ((",\"image_url\":\x7b\"url\":" ++ jsonString u ++ "\x7d").data
                ++ ('\x7d' :: S))) := by
        simp [jsonContentPart, String.data_append]
      rw [hdata]
      unfold parsePart
      rw [stripLit_append]
      simp only [parseJString_round]
      have htxt : parseOptStr ",\"text\":".data
          ((",\"image_url\":\x7b\"url\":" ++ jsonString u ++ "\x7d").data
            ++ ('\x7d' :: S))
          = some (none, (",\"image_url\":\x7b\"url\":" ++ jsonString u ++ "\x7d").data
              ++ ('\x7d' :: S)) := rfl
      simp only [htxt, parseOptImage_round_some u ('\x7d' :: S),
        show stripLit "\x7d".data ('\x7d' :: S) = some S from rfl]
  | some t =>
    cases img with
    | none =>
      have hdata : (jsonContentPart ⟨ty, some t, none⟩).data ++ S
          = "\x7b\"type\":".data ++ ((jsonString ty).data
              ++ (",\"text\":".data ++ ((jsonString t).data ++ ('\x7d' :: S)))) := by
        simp [jsonContentPart, String.data_append]
      rw [hdata]
      unfold parsePart
      rw [stripLit_append]
      simp only [parseJString_round]
      have htxt : parseOptStr ",\"text\":".data
          (",\"text\":".data ++ ((jsonString t).data ++ ('\x7d' :: S)))
          = some (some t, '\x7d' :: S) := by
        unfold parseOptStr
        rw [stripLit_append]
        simp only [parseJString_round]
      simp only [htxt, parseOptImage_round_none,
        show stripLit "\x7d".data ('\x7d' :: S) = some S from rfl]
    | some u =>
      have hdata : (jsonContentPart ⟨ty, some t, some u⟩).data ++ S
          = "\x7b\"type\":".data ++ ((jsonString ty).data
              ++ (",\"text\":".data ++ ((jsonString t).data
                ++ ((",\"image_url\":\x7b\"url\":" ++ jsonString u ++ "\x7d").data
                  ++ ('\x7d' :: S))))) := by
        simp [jsonContentPart, String.data_append]
      rw [hdata]
      unfold parsePart
      rw [stripLit_append]
      simp only [parseJString_round]
      have htxt : parseOptStr ",\"text\":".data
          (",\"text\":".data ++ ((jsonString t).data
            ++ ((",\"image_url\":\x7b\"url\":" ++ jsonString u ++ "\x7d").data
              ++ ('\x7d' :: S))))
          = some (some t,
              (",\"image_url\":\x7b\"url\":" ++ jsonString u ++ "\x7d").data
                ++ ('\x7d' :: S)) := by
        unfold parseOptStr
        rw [stripLit_append]
        simp only [parseJString_round]
      simp only [htxt, parseOptImage_round_some u ('\x7d' :: S),
        show stripLit "\x7d".data ('\x7d' :: S) = some S from rfl]

/-- The characters a comma-joined list contributes after its first element. -/
def commaTailData {α : Type} (f : α → String) : List α → List Char
  | [] => []
  | y :: ys => ',' :: ((f y).data ++ commaTailData f ys)

/-- Splitting a comma-joined nonempty list into head and comma-led tail. -/
theorem joinComma_map_data {α : Type} (f : α → String) (x : α) :
    ∀ xs, (joinComma ((x :: xs).map f)).data = (f x).data ++ commaTailData f xs := by
  intro xs
  induction xs generalizing x with
  | nil =>
    show (joinComma [f x]).data = (f x).data ++ []
    simp [joinComma]
  | cons y ys ih =>
    show (joinComma (f x :: f y :: ys.map f)).data = _
    have hx : joinComma (f x :: f y :: ys.map f) = f x ++ "," ++ joinComma (f y :: ys.map f) :=
      rfl
    rw [hx]
    have hy : joinComma (f y :: ys.map f) = joinComma ((y :: ys).map f) := rfl
    rw [hy]
    simp only [String.data_append, ih y, commaTailData]
    simp

/-- Fuel-bounded loop reading `,part` repetitions up to the closing bracket. -/
def parsePartsTail : Nat → List Char → Option (List ContentPart × List Char)
  | 0, _ => none
  | fuel + 1, l =>
    if l.headD ' ' = ']' then some ([], l.tail)
    else if l.headD ' ' = ',' then
      match parsePart l.tail with
      | none => none
      | some (p, l2) =>
        match parsePartsTail fuel l2 with
        | none => none
        | some (ps, l3) => some (p :: ps, l3)
    else none

/-- Reads a bracketed part list: empty, or a first part then the tail loop. -/
def parseParts (fuel : Nat) (l : List Char) : Option (List ContentPart × List Char) :=
  if l.headD ' ' = ']' then some ([], l.tail)
  else
    match parsePart l with
    | none => none
    | some (p, l2) =>
      match parsePartsTail fuel l2 with
      | none => none
      | some (ps, l3) => some (p :: ps, l3)

/-- Round trip of the part-list tail loop, given enough fuel. -/
theorem parsePartsTail_round :
    ∀ (ps : List ContentPart) (fuel : Nat) (rest : List Char), ps.length < fuel →
      parsePartsTail fuel (commaTailData jsonContentPart ps ++ ']' :: rest)
        = some (ps, rest) := by
  intro ps
  induction ps with
  | nil =>
    intro fuel rest h
    cases fuel with
    | zero => omega
    | succ k =>
      show parsePartsTail (k + 1) (']' :: rest) = some ([], rest)
      rfl
  | cons p tl ih =>
    intro fuel rest h
    cases fuel with
    | zero => omega
    | succ k =>
      show parsePartsTail (k + 1)
        ((',' :: ((jsonContentPart p).data ++ commaTailData jsonContentPart tl)) ++ ']' :: rest)
          = some (p :: tl, rest)
      rw [show (',' :: ((jsonContentPart p).data ++ commaTailData jsonContentPart tl))
            ++ ']' :: rest
          = ',' :: ((jsonContentPart p).data
            ++ (commaTailData jsonContentPart tl ++ ']' :: rest)) from by simp]
      show (match parsePart ((jsonContentPart p).data
            ++ (commaTailData jsonContentPart tl ++ ']' :: rest)) with
        | none => none
        | some (q, l2) =>
          match parsePartsTail k l2 with
          | none => none
          | some (ps, l3) => some (q :: ps, l3)) = some (p :: tl, rest)
      simp only [parsePart_round, ih k rest (by simpa using h)]

/-- A serialised content part starts with an opening brace. -/
theorem jsonContentPart_head (p : ContentPart) (X : List Char) :
    ((jsonContentPart p).data ++ X).headD ' ' = '\x7b' := by
  have hlit : ("\x7b\"type\":" : String).data = '\x7b' :: "\"type\":".data := rfl
  simp [jsonContentPart, String.data_append, hlit]

/-- Round trip of `parseParts` against the comma-joined part list. -/
theorem parseParts_round (ps : List ContentPart) (fuel : Nat) (rest : List Char)
    (h : ps.length ≤ fuel) :
    parseParts fuel ((joinComma (ps.map jsonContentPart)).data ++ ']' :: rest)
      = some (ps, rest) := by
  cases ps with
  | nil =>
    show parseParts fuel ((joinComma []).data ++ ']' :: rest) = some ([], rest)
    rw [show (joinComma []).data ++ ']' :: rest = ']' :: rest from by
      show ("" : String).data ++ ']' :: rest = ']' :: rest
      simp]
    unfold parseParts
    rw [if_pos (by rfl)]
    rfl
  | cons p tl =>
    rw [joinComma_map_data jsonContentPart p tl]
    rw [show ((jsonContentPart p).data ++ commaTailData jsonContentPart tl) ++ ']' :: rest
        = (jsonContentPart p).data
          ++ (commaTailData jsonContentPart tl ++ ']' :: rest) from by simp]
    unfold parseParts
    rw [if_neg (by rw [jsonContentPart_head]; decide)]
    simp only [parsePart_round,
      parsePartsTail_round tl fuel rest (by simpa using h)]

/-- Fuel needed to parse a serialised message content. -/
def contentFuel : MessageContent → Nat
  | .str _ => 0
  | .parts ps => ps.length

/-- Parser for a message content: a part array or a plain string. -/
def parseContent (fuel : Nat) (l : List Char) : Option (MessageContent × List Char) :=
  if l.headD ' ' = '[' then
    match parseParts fuel l.tail with
    | none => none
    | some (ps, l2) => some (.parts ps, l2)
  else
    match parseJString l with
    | none => none
    | some (s, l2) => some (.str s, l2)

/-- Round trip of `parseContent` against `jsonContent`. -/
theorem parseContent_round (mc : MessageContent) (fuel : Nat) (rest : List Char)
    (h : contentFuel mc ≤ fuel) :
    parseContent fuel ((jsonContent mc).data ++ rest) = some (mc, rest) := by
  cases mc with
  | str s =>
    show parseContent fuel ((jsonString s).data ++ rest) = some (.str s, rest)
    have hdata : (jsonString s).data ++ rest
        = '"' :: ((s.data.map jsonEscapeChar).flatten ++ '"' :: rest) := by
      have h1 : (jsonString s).data
          = '"' :: ((s.data.map jsonEscapeChar).flatten ++ ['"']) := by
        simp [jsonString, String.data_append]
      rw [h1]
      simp
    rw [hdata]
    unfold parseContent
    rw [if_neg (by rw [List.headD_cons]; decide)]
    have hjs : parseJString ('"' :: ((s.data.map jsonEscapeChar).flatten ++ '"' :: rest))
        = some (s, rest) := by
      have h2 := parseJString_round s rest
      rw [show (jsonString s).data ++ rest
          = '"' :: ((s.data.map jsonEscapeChar).flatten ++ '"' :: rest) from hdata] at h2
      exact h2
    simp only [hjs]
  | parts ps =>
    show parseContent fuel
      (("[" ++ joinComma (ps.map jsonContentPart) ++ "]").data ++ rest)
        = some (.parts ps, rest)
    have hdata : ("[" ++ joinComma (ps.map jsonContentPart) ++ "]").data ++ rest
        = '[' :: ((joinComma (ps.map jsonContentPart)).data ++ ']' :: rest) := by
      have h1 : ("[" : String).data = ['['] := rfl
      have h2 : ("]" : String).data = [']'] := rfl
      simp [String.data_append, h1, h2]
    rw [hdata]
    unfold parseContent
    rw [if_pos (by rw [List.headD_cons])]
    simp only [List.tail_cons, parseParts_round ps fuel rest (by simpa using h)]

/-- Parser for one serialised chat message. -/
def parseMessage (fuel : Nat) (l : List Char) : Option (GeminiMessage × List Char) :=
  match stripLit "\x7b\"role\":".data l with
  | none => none
  | some l1 =>
    match parseJString l1 with
    | none => none
    | some (role, l2) =>
      match stripLit ",\"content\":".data l2 with
      | none => none
      | some l3 =>
        match parseContent fuel l3 with
        | none => none
        | some (mc, l4) =>
          match stripLit "\x7d".data l4 with
          | none => none
          | some l5 => some ({ role := role, content := mc }, l5)

/-- Round trip of `parseMessage` against `jsonMessage`. -/
theorem parseMessage_round (m : GeminiMessage) (fuel : Nat) (S : List Char)
    (h : contentFuel m.content ≤ fuel) :
    parseMessage fuel ((jsonMessage m).data ++ S) = some (m, S) := by
  obtain ⟨role, mc⟩ := m
  have hdata : (jsonMessage ⟨role, mc⟩).data ++ S
      = "\x7b\"role\":".data ++ ((jsonString role).data
          ++ (",\"content\":".data ++ ((jsonContent mc).data ++ ('\x7d' :: S)))) := by
    have h1 : ("\x7d" : String).data = ['\x7d'] := rfl
    simp [jsonMessage, String.data_append, h1]
  rw [hdata]
  unfold parseMessage
  rw [stripLit_append]
  simp only [parseJString_round]
  rw [stripLit_append]
  simp only [parseContent_round mc fuel ('\x7d' :: S) (by simpa using h)]
  rw [show stripLit "\x7d".data ('\x7d' :: S) = some S from rfl]

/-- Fuel needed to parse a serialised message list. -/
def msgsFuel : List GeminiMessage → Nat
  | [] => 0
  | m :: ms => 1 + contentFuel m.content + msgsFuel ms

/-- Fuel-bounded loop reading `,message` repetitions up to the closing
bracket. -/
def parseMsgsTail : Nat → List Char → Option (List GeminiMessage × List Char)
  | 0, _ => none
  | fuel + 1, l =>
    if l.headD ' ' = ']' then some ([], l.tail)
    else if l.headD ' ' = ',' then
      match parseMessage fuel l.tail with
      | none => none
      | some (m, l2) =>
        match parseMsgsTail fuel l2 with
        | none => none
        | some (ms, l3) => some (m :: ms, l3)
    else none

/-- Reads a bracketed message list. -/
def parseMsgs (fuel : Nat) (l : List Char) : Option (List GeminiMessage × List Char) :=
  if l.headD ' ' = ']' then some ([], l.tail)
  else
    match parseMessage fuel l with
    | none => none
    | some (m, l2) =>
      match parseMsgsTail fuel l2 with
      | none => none
      | some (ms, l3) => some (m :: ms, l3)

/-- A serialised message starts with an opening brace. -/
theorem jsonMessage_head (m : GeminiMessage) (X : List Char) :
    ((jsonMessage m).data ++ X).headD ' ' = '\x7b' := by
  have hlit : ("\x7b\"role\":" : String).data = '\x7b' :: "\"role\":".data := rfl
  simp [jsonMessage, String.data_append, hlit]

/-- Round trip of the message-list tail loop, given enough fuel. -/
theorem parseMsgsTail_round :
    ∀ (ms : List GeminiMessage) (fuel : Nat) (rest : List Char), msgsFuel ms < fuel →
      parseMsgsTail fuel (commaTailData jsonMessage ms ++ ']' :: rest) = some (ms, rest) := by
  intro ms
  induction ms with
  | nil =>
    intro fuel rest h
    cases fuel with
    | zero => omega
    | succ k =>
      show parseMsgsTail (k + 1) (']' :: rest) = some ([], rest)
      rfl
  | cons m tl ih =>
    intro fuel rest h
    cases fuel with
    | zero => omega
    | succ k =>
      have hf : msgsFuel (m :: tl) = 1 + contentFuel m.content + msgsFuel tl := rfl
      show parseMsgsTail (k + 1)
        ((',' :: ((jsonMessage m).data ++ commaTailData jsonMessage tl)) ++ ']' :: rest)
          = some (m :: tl, rest)
      rw [show (',' :: ((jsonMessage m).data ++ commaTailData jsonMessage tl)) ++ ']' :: rest
          = ',' :: ((jsonMessage m).data
            ++ (commaTailData jsonMessage tl ++ ']' :: rest)) from by simp]
      show (match parseMessage k ((jsonMessage m).data
            ++ (commaTailData jsonMessage tl ++ ']' :: rest)) with
        | none => none
        | some (m2, l2) =>
          match parseMsgsTail k l2 with
          | none => none
          | some (ms2, l3) => some (m2 :: ms2, l3)) = some (m :: tl, rest)
      rw [hf] at h
      simp only [parseMessage_round m k _ (by omega),
        ih k rest (by omega)]

/-- Round trip of `parseMsgs` against the comma-joined message list. -/
theorem parseMsgs_round (ms : List GeminiMessage) (fuel : Nat) (rest : List Char)
    (h : msgsFuel ms ≤ fuel) :
    parseMsgs fuel ((joinComma (ms.map jsonMessage)).data ++ ']' :: rest)
      = some (ms, rest) := by
  cases ms with
  | nil =>
    rw [show (joinComma ([].map jsonMessage)).data ++ ']' :: rest = ']' :: rest from by
      show ("" : String).data ++ ']' :: rest = ']' :: rest
      simp]
    unfold parseMsgs
    rw [if_pos (by rfl)]
    rfl
  | cons m tl =>
    have hf : msgsFuel (m :: tl) = 1 + contentFuel m.content + msgsFuel tl := rfl
    rw [hf] at h
    rw [joinComma_map_data jsonMessage m tl]
    rw [show ((jsonMessage m).data ++ commaTailData jsonMessage tl) ++ ']' :: rest
        = (jsonMessage m).data ++ (commaTailData jsonMessage tl ++ ']' :: rest) from by simp]
    unfold parseMsgs
    rw [if_neg (by rw [jsonMessage_head]; decide)]
    simp only [parseMessage_round m fuel _ (by omega),
      parseMsgsTail_round tl fuel rest (by omega)]

/-- Whatever follows an optional numeric field never starts with a digit. -/
theorem optNumField_head_nondigit (name : String) (v : Option Rat) (S : List Char)
    (h : isDigitCh (S.headD ' ') = false) :
    isDigitCh (((optNumField name v).data ++ S).headD ' ') = false := by
  cases v with
  | none =>
    show isDigitCh ((("" : String).data ++ S).headD ' ') = false
    simpa using h
  | some q =>
    have hh : (((optNumField name (some q)).data ++ S).headD ' ') = ',' := by
      have hlit : (",\"" : String).data = ',' :: ['"'] := rfl
      simp [optNumField, String.data_append, hlit]
    rw [hh]
    decide

/-- Parser for the whole fingerprint serialisation `requestString`: returns the
six fingerprinted fields (numeric fields as numerator/denominator pairs) and
requires the input to be consumed exactly. -/
def parseReq (fuel : Nat) (l : List Char) :
    Option (String × List GeminiMessage × Option (Int × Nat) × Option (Int × Nat)
      × Option (Int × Nat) × Option (Int × Nat)) :=
  match stripLit "\x7b\"model\":".data l with
  | none => none
  | some l1 =>
    match parseJString l1 with
    | none => none
    | some (mo, l2) =>
      match stripLit ",\"messages\":[".data l2 with
      | none => none
      | some l3 =>
        match parseMsgs fuel l3 with
        | none => none
        | some (ms, l4) =>
          match parseOptNum ",\"temperature\":".data l4 with
          | none => none
          | some (t, l5) =>
            match parseOptNum ",\"max_tokens\":".data l5 with
            | none => none
            | some (mt, l6) =>
              match parseOptNum ",\"top_p\":".data l6 with
              | none => none
              | some (tp, l7) =>
                match parseOptNum ",\"top_k\":".data l7 with
                | none => none
                | some (tk, l8) =>
                  if l8 = ['\x7d'] then some (mo, ms, t, mt, tp, tk) else none

/-- The six fingerprinted fields of a request, numeric fields viewed through
`numKey`. -/
def reqKey (r : GeminiChatRequest) :
    String × List GeminiMessage × Option (Int × Nat) × Option (Int × Nat)
      × Option (Int × Nat) × Option (Int × Nat) :=
  (r.model, r.messages, numKey r.temperature, numKey r.max_tokens,
    numKey r.top_p, numKey r.top_k)

/-- A literal that matches none of the optional-field openers or the closing
brace fails against the whole optional-field suffix. -/
theorem stripLit_optTail_none (lit : List Char)
    (hK : ∀ X : List Char, ∀ q : Rat,
      stripLit lit ((",\"top_k\":" ++ jsonNumber q).data ++ X) = none)
    (hP : ∀ X : List Char, ∀ q : Rat,
      stripLit lit ((",\"top_p\":" ++ jsonNumber q).data ++ X) = none)
    (hM : ∀ X : List Char, ∀ q : Rat,
      stripLit lit ((",\"max_tokens\":" ++ jsonNumber q).data ++ X) = none)
    (hE : stripLit lit ['\x7d'] = none)
    (vm vp vk : Option Rat) :
    stripLit lit ((optNumField "max_tokens" vm).data
      ++ ((optNumField "top_p" vp).data
        ++ ((optNumField "top_k" vk).data ++ ['\x7d']))) = none := by
  cases vm with
  | some q =>
    exact hM _ q
  | none =>
    show stripLit lit (("" : String).data ++ _) = none
    rw [show ("" : String).data ++ ((optNumField "top_p" vp).data
        ++ ((optNumField "top_k" vk).data ++ ['\x7d']))
      = (optNumField "top_p" vp).data
        ++ ((optNumField "top_k" vk).data ++ ['\x7d']) from by simp]
    cases vp with
    | some q => exact hP _ q
    | none =>
      show stripLit lit (("" : String).data ++ _) = none
      rw [show ("" : String).data ++ ((optNumField "top_k" vk).data ++ ['\x7d'])
        = (optNumField "top_k" vk).data ++ ['\x7d'] from by simp]
      cases vk with
      | some q => exact hK _ q
      | none => exact hE

/-- Round trip of `parseReq` against `requestString`, given enough fuel for the
message list. -/
theorem parseReq_round (r : GeminiChatRequest) (fuel : Nat)
    (h : msgsFuel r.messages ≤ fuel) :
    parseReq fuel (requestString r).data = some (reqKey r) := by
  obtain ⟨mo, ms, st, vt, vm, vp, vk⟩ := r
  have hd4 : isDigitCh ((['\x7d'] : List Char).headD ' ') = false := by decide
  have hd3 := optNumField_head_nondigit "top_k" vk ['\x7d'] hd4
  have hd2 := optNumField_head_nondigit "top_p" vp
    ((optNumField "top_k" vk).data ++ ['\x7d']) hd3
  have hd1 := optNumField_head_nondigit "max_tokens" vm
    ((optNumField "top_p" vp).data ++ ((optNumField "top_k" vk).data ++ ['\x7d'])) hd2
  have hnT : vt = none → stripLit (",\"" ++ "temperature" ++ "\":").data
      ((optNumField "max_tokens" vm).data ++ ((optNumField "top_p" vp).data
        ++ ((optNumField "top_k" vk).data ++ ['\x7d']))) = none := fun _ =>
    stripLit_optTail_none (",\"" ++ "temperature" ++ "\":").data
      (fun _ _ => rfl) (fun _ _ => rfl) (fun _ _ => rfl) rfl vm vp vk
  have hnM : vm = none → stripLit (",\"" ++ "max_tokens" ++ "\":").data
      ((optNumField "top_p" vp).data ++ ((optNumField "top_k" vk).data ++ ['\x7d']))
        = none := by
    intro _
    cases vp with
    | some q => exact rfl
    | none =>
      show stripLit _ (("" : String).data ++ _) = none
      rw [show ("" : String).data ++ ((optNumField "top_k" vk).data ++ ['\x7d'])
        = (optNumField "top_k" vk).data ++ ['\x7d'] from by simp]
      cases vk with
      | some q => exact rfl
      | none => exact rfl
  have hnP : vp = none → stripLit (",\"" ++ "top_p" ++ "\":").data
      ((optNumField "top_k" vk).data ++ ['\x7d']) = none := by
    intro _
    cases vk with
    | some q => exact rfl
    | none => exact rfl
  have hnK : vk = none → stripLit (",\"" ++ "top_k" ++ "\":").data
      (['\x7d'] : List Char) = none := fun _ => rfl
  have hT := parseOptNum_round "temperature" vt
    ((optNumField "max_tokens" vm).data ++ ((optNumField "top_p" vp).data
      ++ ((optNumField "top_k" vk).data ++ ['\x7d']))) hnT hd1
  have hM := parseOptNum_round "max_tokens" vm
    ((optNumField "top_p" vp).data ++ ((optNumField "top_k" vk).data ++ ['\x7d'])) hnM hd2
  have hP := parseOptNum_round "top_p" vp
    ((optNumField "top_k" vk).data ++ ['\x7d']) hnP hd3
  have hK := parseOptNum_round "top_k" vk ['\x7d'] hnK hd4
  rw [show (",\"" ++ "temperature" ++ "\":" : String) = ",\"temperature\":" from rfl] at hT
  rw [show (",\"" ++ "max_tokens" ++ "\":" : String) = ",\"max_tokens\":" from rfl] at hM
  rw [show (",\"" ++ "top_p" ++ "\":" : String) = ",\"top_p\":" from rfl] at hP
  rw [show (",\"" ++ "top_k" ++ "\":" : String) = ",\"top_k\":" from rfl] at hK
  have hdata : (requestString ⟨mo, ms, st, vt, vm, vp, vk⟩).data
      = "\x7b\"model\":".data ++ ((jsonString mo).data
          ++ (",\"messages\":[".data ++ ((joinComma (ms.map jsonMessage)).data
            ++ (']' :: ((optNumField "temperature" vt).data
              ++ ((optNumField "max_tokens" vm).data
                ++ ((optNumField "top_p" vp).data
                  ++ ((optNumField "top_k" vk).data ++ ['\x7d'])))))))) := by
    have h1 : ("]" : String).data = [']'] := rfl
    have h2 : ("\x7d" : String).data = ['\x7d'] := rfl
    simp [requestString, String.data_append, h1, h2]
  rw [hdata]
  unfold parseReq
  rw [stripLit_append]
  simp only [parseJString_round]
  rw [stripLit_append]
  simp only [parseMsgs_round ms fuel _ (by simpa using h)]
  simp only [hT, hM, hP, hK]
  rfl

/-- The numerator/denominator view determines the optional rational. -/
theorem numKey_inj (v1 v2 : Option Rat) (h : numKey v1 = numKey v2) : v1 = v2 := by
  cases v1 with
  | none =>
    cases v2 with
    | none => rfl
    | some q => exact absurd h (by simp [numKey])
  | some q1 =>
    cases v2 with
    | none => exact absurd h (by simp [numKey])
    | some q2 =>
      have h2 : (q1.num, q1.den) = (q2.num, q2.den) := by
        simpa [numKey] using h
      have hn : q1.num = q2.num := congrArg Prod.fst h2
      have hd : q1.den = q2.den := congrArg Prod.snd h2
      rw [Rat.ext hn hd]

/-- The fingerprint input determines all six fingerprinted fields: equal
serialisations force equal fields, by parsing both sides. -/
theorem requestString_inj_fields (r1 r2 : GeminiChatRequest)
    (h : requestString r1 = requestString r2) :
    r1.model = r2.model ∧ r1.messages = r2.messages ∧ r1.temperature = r2.temperature ∧
    r1.max_tokens = r2.max_tokens ∧ r1.top_p = r2.top_p ∧ r1.top_k = r2.top_k := by
  have h1 := parseReq_round r1 (msgsFuel r1.messages + msgsFuel r2.messages) (by omega)
  have h2 := parseReq_round r2 (msgsFuel r1.messages + msgsFuel r2.messages) (by omega)
  rw [h] at h1
  rw [h2] at h1
  have hk : reqKey r1 = reqKey r2 := (Option.some.inj h1).symm
  refine ⟨congrArg (fun t => t.1) hk, congrArg (fun t => t.2.1) hk,
    numKey_inj _ _ (congrArg (fun t => t.2.2.1) hk),
    numKey_inj _ _ (congrArg (fun t => t.2.2.2.1) hk),
    numKey_inj _ _ (congrArg (fun t => t.2.2.2.2.1) hk),
    numKey_inj _ _ (congrArg (fun t => t.2.2.2.2.2) hk)⟩


/-- The serialised fingerprint input depends on exactly the six
fingerprinted fields. -/
theorem requestString_congr (r1 r2 : GeminiChatRequest) (hm : r1.model = r2.model)
    (hmsg : r1.messages = r2.messages) (ht : r1.temperature = r2.temperature)
    (hmt : r1.max_tokens = r2.max_tokens) (hp : r1.top_p = r2.top_p)
    (hk : r1.top_k = r2.top_k) : requestString r1 = requestString r2 := by
  unfold requestString
  rw [hm, hmsg, ht, hmt, hp, hk]

theorem variantKey_ne (baseKey s : String) :
    baseKey ++ "_variant_" ++ s ≠ baseKey := by
  intro h
  have hlen := congrArg String.length h
  rw [String.length_append, String.length_append] at hlen
  have h9 : ("_variant_" : String).length = 9 := by decide
  omega

theorem cacheLookup_cons_ne (k' : String) (v : GeminiChatResponse) (st : CacheState)
    (k : String) (h : k' ≠ k) : cacheLookup ((k', v) :: st) k = cacheLookup st k := by
  show (if k' = k then some v else cacheLookup st k) = cacheLookup st k
  rw [if_neg h]

theorem cacheLookup_cons_self (k : String) (v : GeminiChatResponse) (st : CacheState) :
    cacheLookup ((k, v) :: st) k = some v := by
  show (if k = k then some v else cacheLookup st k) = some v
  rw [if_pos rfl]

theorem cacheLookup_cacheVariants (cfg : CacheConfig) (first : GeminiChatResponse)
    (baseKey : String) :
    ∀ (results : List (Except String GeminiChatResponse)) (n : Nat) (st : CacheState),
      cacheLookup (cacheVariants cfg first baseKey results n st) baseKey
        = cacheLookup st baseKey := by
  intro results
  induction results with
  | nil => intro n st; rfl
  | cons x rest ih =>
    intro n st
    cases x with
    | error e => exact ih n st
    | ok r =>
      show cacheLookup (cacheVariants cfg first baseKey (.ok r :: rest) n st) baseKey = _
      unfold cacheVariants
      by_cases hid : r.id ≠ first.id
      · rw [if_pos hid, ih]
        unfold setCachedResponse
        by_cases hec : cfg.enableCache = true
        · rw [if_pos hec]
          exact cacheLookup_cons_ne _ _ _ _ (variantKey_ne baseKey (toString (n + 1)))
        · rw [if_neg hec]
      · rw [if_neg hid]
        exact ih n st

/-- After a successful `handleRequest` with caching enabled, the response is
stored under the request's fingerprint. -/
theorem handleRequest_ok_lookup (cfg : CacheConfig) (st : CacheState)
    (r : GeminiChatRequest) (outcomes : List (Except String GeminiChatResponse))
    (hc : cfg.enableCache = true) (resp : GeminiChatResponse)
    (hok : (handleRequest cfg st r outcomes).1 = .ok resp) :
    cacheLookup ((handleRequest cfg st r outcomes).2.1) (generateCacheKey r)
      = some resp := by
  unfold handleRequest at hok ⊢
  cases hcached : getCachedResponse cfg st (generateCacheKey r) with
  | some c =>
    simp only [hcached] at hok ⊢
    have hcr : c = resp := Except.ok.inj hok
    subst hcr
    unfold getCachedResponse at hcached
    rw [if_pos hc] at hcached
    exact hcached
  | none =>
    simp only [hcached] at hok ⊢
    by_cases hcc : ¬ cfg.enableConcurrent = true ∨ cfg.concurrentRequests ≤ 1
    · rw [if_pos hcc] at hok ⊢
      cases hout : outcomes.headD (.error "no outcome") with
      | ok a =>
        simp only [hout] at hok ⊢
        have har : a = resp := Except.ok.inj hok
        subst har
        unfold setCachedResponse
        rw [if_pos hc]
        exact cacheLookup_cons_self _ _ _
      | error e =>
        simp only [hout] at hok
        exact absurd hok (by simp)
    · rw [if_neg hcc] at hok ⊢
      unfold handleConcurrentRequests at hok ⊢
      cases hany : promiseAny (outcomes.take cfg.concurrentRequests) with
      | ok a =>
        simp only [hany] at hok ⊢
        have har : a = resp := Except.ok.inj hok
        subst har
        rw [cacheLookup_cacheVariants]
        unfold setCachedResponse
        rw [if_pos hc]
        exact cacheLookup_cons_self _ _ _
      | error e =>
        simp only [hany] at hok
        exact absurd hok (by simp)

/-- C6: with caching enabled, requests agreeing on {model, messages,
temperature, max_tokens, top_p, top_k} are given the same fingerprint (which
depends on nothing else), and once a first request has succeeded, a second
request with the same six fields is answered from the cache entry written by
the first, with the same response, an unchanged cache and zero upstream
calls; and two requests that differ in exactly one of the six fields have
distinct fingerprint inputs: the serialisations hashed by `generateCacheKey`
differ, so such a pair can only collide through a SHA-256 collision (the
witness exhibits a concrete differing pair whose 256-bit digests are
computed and distinct, the claimed cache miss). -/
theorem C6_fingerprint_cache (cfg : CacheConfig) (st : CacheState)
    (r1 r2 : GeminiChatRequest)
    (outcomes1 outcomes2 : List (Except String GeminiChatResponse))
    (hc : cfg.enableCache = true) :
    ((r1.model = r2.model ∧ r1.messages = r2.messages ∧
      r1.temperature = r2.temperature ∧ r1.max_tokens = r2.max_tokens ∧
      r1.top_p = r2.top_p ∧ r1.top_k = r2.top_k) →
      generateCacheKey r1 = generateCacheKey r2 ∧
      ∀ resp, (handleRequest cfg st r1 outcomes1).1 = .ok resp →
        handleRequest cfg ((handleRequest cfg st r1 outcomes1).2.1) r2 outcomes2
          = (.ok resp, (handleRequest cfg st r1 outcomes1).2.1, 0)) ∧
    (differOneField r1 r2 → requestString r1 ≠ requestString r2) := by
  constructor
  · rintro ⟨hm, hmsg, ht, hmt, hp, hk⟩
    have hkeys : generateCacheKey r1 = generateCacheKey r2 := by
      unfold generateCacheKey
      rw [requestString_congr r1 r2 hm hmsg ht hmt hp hk]
    refine ⟨hkeys, ?_⟩
    intro resp hok
    have hlook := handleRequest_ok_lookup cfg st r1 outcomes1 hc resp hok
    set st1 := (handleRequest cfg st r1 outcomes1).2.1 with hst1
    have hcached2 : getCachedResponse cfg st1 (generateCacheKey r2) = some resp := by
      unfold getCachedResponse
      rw [if_pos hc, ← hkeys]
      exact hlook
    unfold handleRequest
    simp only [hcached2]
  · intro hd hcontra
    obtain ⟨em, emsg, et, emt, ep, ek⟩ := requestString_inj_fields r1 r2 hcontra
    rcases hd with ⟨h, -⟩ | ⟨-, h, -⟩ | ⟨-, -, h, -⟩ | ⟨-, -, -, h, -⟩
      | ⟨-, -, -, -, h, -⟩ | ⟨-, -, -, -, -, h⟩
    · exact h em
    · exact h emsg
    · exact h et
    · exact h emt
    · exact h ep
    · exact h ek

/-- The cache-enabled, non-concurrent configuration used by the witness. -/
def wCfg : CacheConfig :=
  { enableCache := true, enableConcurrent := false, concurrentRequests := 1 }

set_option maxRecDepth 40000 in
/-- Witness for `C6_fingerprint_cache`: a first cache-missing request that
succeeds upstream, then the identical request answered from cache with zero
upstream calls; and a pair differing only in its message text whose
serialisations — and computed 256-bit digests — are distinct. -/
theorem C6_fingerprint_cache_witness :
    wCfg.enableCache = true ∧
    (handleRequest wCfg [] (pigeonReq 1) [.ok elevenWordResp]).1 = .ok elevenWordResp ∧
    handleRequest wCfg ((handleRequest wCfg [] (pigeonReq 1) [.ok elevenWordResp]).2.1)
        (pigeonReq 1) []
      = (.ok elevenWordResp,
          (handleRequest wCfg [] (pigeonReq 1) [.ok elevenWordResp]).2.1, 0) ∧
    differOneField (pigeonReq 1) (pigeonReq 2) ∧
    requestString (pigeonReq 1) ≠ requestString (pigeonReq 2) ∧
    generateCacheKey (pigeonReq 1) ≠ generateCacheKey (pigeonReq 2) := by
  refine ⟨rfl, rfl, ?_, ?_, ?_, ?_⟩
  · exact ((C6_fingerprint_cache wCfg [] (pigeonReq 1) (pigeonReq 1)
      [.ok elevenWordResp] [] rfl).1 ⟨rfl, rfl, rfl, rfl, rfl, rfl⟩).2 elevenWordResp rfl
  · unfold differOneField
    decide
  · exact (C6_fingerprint_cache wCfg [] (pigeonReq 1) (pigeonReq 2) [] [] rfl).2
      (by unfold differOneField; decide)
  · decide

end GeminiProxy
